import Mathlib

/-!
# Verification of the flight-aggregator search pipeline

A shallow embedding, in Lean 4, of the core of the `flight-aggregator` Go
repository (provider adapters, aggregator, retry executor, cache, scorer,
sorter, search orchestration), together with theorems settling the frozen
claims about its natural-language specification.

Modelling conventions:
* Go `float64` values (prices, scores, retry multipliers) are modelled as
  exact rationals `ℚ`; Go machine integers as `Int`/`Nat`.
* Go `time.Time` is modelled as an instant (seconds since the Unix epoch)
  together with a fixed UTC offset in minutes; the three Indonesian zones
  used by the program (`Asia/Jakarta`, `Asia/Makassar`, `Asia/Jayapura`)
  are fixed-offset zones without DST, so this is faithful for them.
* Go maps whose contents are only queried through membership, lookup and
  `len` are modelled as association lists with overwrite-on-insert.
* Fallible Go functions returning `(T, error)` are modelled with `Option`
  (`none` = error) or with an explicit error-message component.
* Concurrency in the aggregator is modelled by quantifying over the list of
  per-provider outcomes in an arbitrary completion order, which is exactly
  the information the fan-in loop (`collectResults`) consumes.
-/

set_option autoImplicit false

/-! ## Data model (internal/models) -/

/-- Go `time.Time` restricted to fixed-offset zones: the absolute instant in
seconds since the Unix epoch plus the zone's UTC offset in minutes. -/
structure DateTime where
  epochSecs : Int
  offsetMin : Int
  deriving Repr, DecidableEq

/-- `time.Time.Unix()`. -/
def DateTime.unix (t : DateTime) : Int := t.epochSecs

/-- Wall-clock seconds since the zone-local epoch, the quantity whose
calendar rendering `time.Time` field accessors expose. -/
def DateTime.wallSecs (t : DateTime) : Int := t.epochSecs + t.offsetMin * 60

/-- `time.Time.Hour()`: the hour (0–23) of the wall clock in the time's zone. -/
def DateTime.hour (t : DateTime) : Int := t.wallSecs % 86400 / 3600

/-- `time.Time.Before`: comparison of absolute instants. -/
def DateTime.before (t u : DateTime) : Bool := t.epochSecs < u.epochSecs

/-- `time.Time.After`: comparison of absolute instants. -/
def DateTime.after (t u : DateTime) : Bool := t.epochSecs > u.epochSecs

/-- `models.Airline`. -/
structure Airline where
  name : String
  code : String
  deriving Repr, DecidableEq

/-- `models.FlightLocation`. -/
structure FlightLocation where
  airport : String
  city : String
  datetime : DateTime
  timestamp : Int
  deriving Repr, DecidableEq

/-- `models.Duration`. -/
structure FlightDuration where
  totalMinutes : Int
  formatted : String
  deriving Repr, DecidableEq

/-- `models.Money` (`Amount` is a Go `float64`, modelled as `ℚ`). -/
structure Money where
  amount : ℚ
  currency : String
  deriving Repr, DecidableEq

/-- `models.BaggageInfo`. -/
structure BaggageInfo where
  carryOn : String
  checked : String
  deriving Repr, DecidableEq

/-- `models.Flight`, the unified record every adapter emits. -/
structure Flight where
  id : String
  provider : String
  flightNumber : String
  airline : Airline
  departure : FlightLocation
  arrival : FlightLocation
  duration : FlightDuration
  stops : Int
  price : Money
  cabinClass : String
  availableSeats : Int
  aircraft : String
  amenities : List String
  baggage : BaggageInfo
  deriving Repr, DecidableEq

/-- `models.TimeRange`. -/
structure TimeRange where
  start : Int
  «end» : Int
  deriving Repr, DecidableEq

/-- `models.FilterOptions` (pointers modelled as `Option`). -/
structure FilterOptions where
  minPrice : Option ℚ
  maxPrice : Option ℚ
  maxStops : Option Int
  airlines : List String
  departureTime : Option TimeRange
  arrivalTime : Option TimeRange
  maxDuration : Option Int
  deriving Repr, DecidableEq

/-- `models.SearchRequest`. -/
structure SearchRequest where
  origin : String
  destination : String
  departureDate : String
  returnDate : Option String
  passengers : Int
  cabinClass : String
  filters : Option FilterOptions
  sortBy : String
  sortOrder : String
  returnFilters : Option FilterOptions
  returnSortBy : String
  returnSortOrder : String
  deriving Repr, DecidableEq

/-- `models.SearchMetadata`. -/
structure SearchMetadata where
  totalResults : Int
  providersQueried : Int
  providersSucceeded : Int
  providersFailed : Int
  searchTimeMs : Int
  cacheHit : Bool
  providerResults : List (String × Int)
  providerErrors : List (String × String)
  deriving Repr, DecidableEq

/-- `models.SearchCriteria`. -/
structure SearchCriteria where
  origin : String
  destination : String
  departureDate : String
  returnDate : Option String
  passengers : Int
  cabinClass : String
  deriving Repr, DecidableEq

/-- `models.SearchResponse`. -/
structure SearchResponse where
  searchCriteria : SearchCriteria
  metadata : SearchMetadata
  flights : List Flight
  bestValueFlight : Option Flight
  returnFlights : List Flight
  bestValueReturnFlight : Option Flight
  returnMetadata : Option SearchMetadata
  deriving Repr, DecidableEq

/-! ## Association-list model of the Go maps used by the aggregator -/

/-- `m[k] = v` for a Go map: overwrite an existing binding, else append. -/
def mapInsert {β : Type} (k : String) (v : β) : List (String × β) → List (String × β)
  | [] => [(k, v)]
  | (k2, v2) :: rest => if k2 = k then (k, v) :: rest else (k2, v2) :: mapInsert k v rest

/-- `m[k]` lookup for a Go map. -/
def mapLookup {β : Type} (k : String) : List (String × β) → Option β
  | [] => none
  | (k2, v2) :: rest => if k2 = k then some v2 else mapLookup k rest

theorem mapInsert_length_le {β : Type} (k : String) (v : β) (m : List (String × β)) :
    (mapInsert k v m).length ≤ m.length + 1 := by
  induction m with
  | nil => simp [mapInsert]
  | cons hd tl ih =>
    by_cases h : hd.1 = k
    · simp [mapInsert, h]
    · simp only [mapInsert, if_neg h, List.length_cons]
      omega

theorem mapInsert_keys {β : Type} (k : String) (v : β) (m : List (String × β)) :
    (mapInsert k v m).map Prod.fst = if k ∈ m.map Prod.fst then m.map Prod.fst
      else m.map Prod.fst ++ [k] := by
  induction m with
  | nil => simp [mapInsert]
  | cons hd tl ih =>
    by_cases h : hd.1 = k
    · simp [mapInsert, h]
    · simp only [mapInsert, if_neg h, List.map_cons, ih, List.mem_cons]
      by_cases hk : k ∈ tl.map Prod.fst
      · simp [hk]
      · simp [hk, Ne.symm h]

theorem mapLookup_insert_self {β : Type} (k : String) (v : β) (m : List (String × β)) :
    mapLookup k (mapInsert k v m) = some v := by
  induction m with
  | nil => simp [mapInsert, mapLookup]
  | cons hd tl ih =>
    by_cases h : hd.1 = k <;> simp [mapInsert, mapLookup, h, ih]

theorem mapLookup_insert_ne {β : Type} (k k2 : String) (v : β) (m : List (String × β))
    (h : k2 ≠ k) : mapLookup k2 (mapInsert k v m) = mapLookup k2 m := by
  induction m with
  | nil => simp [mapInsert, mapLookup, Ne.symm h]
  | cons hd tl ih =>
    by_cases hh : hd.1 = k
    · subst hh
      simp [mapInsert, mapLookup, Ne.symm h]
    · simp only [mapInsert, if_neg hh, mapLookup]
      by_cases h2 : hd.1 = k2 <;> simp [h2, ih]

theorem mapLookup_eq_none_of_not_mem {β : Type} (k : String) (m : List (String × β))
    (h : k ∉ m.map Prod.fst) : mapLookup k m = none := by
  induction m with
  | nil => rfl
  | cons hd tl ih =>
    simp only [List.map_cons, List.mem_cons] at h
    push_neg at h
    simp [mapLookup, Ne.symm h.1, ih h.2]

/-! ## Aggregator (internal/aggregator)

The fan-out launches one task per selected provider; each task emits exactly
one `ProviderResult` on the results channel, and `collectResults` folds the
channel contents in completion order.  We model the channel contents as a
list of outcomes in an arbitrary order and embed the fan-in fold and the
post-collection error decision verbatim. -/

/-- Go `strings.ToLower` on a single character, for the ASCII letters that
occur in provider and airline names. -/
def goCharLower (c : Char) : Char :=
  if 65 ≤ c.toNat ∧ c.toNat ≤ 90 then Char.ofNat (c.toNat + 32) else c

/-- Go `strings.ToLower` (ASCII range; all names in the program are ASCII). -/
def goToLower (s : String) : String := ⟨s.data.map goCharLower⟩

/-- A provider, abstracted to its stable `Name()`. -/
structure Provider where
  name : String
  deriving Repr, DecidableEq

/-- `aggregator.ProviderResult`: one outcome per launched provider task
(`Duration` is wall-clock telemetry and is omitted). -/
structure ProviderResult where
  provider : String
  flights : List Flight
  error : Option String
  deriving Repr, DecidableEq

/-- `aggregator.AggregatedResults` (`TotalDuration` telemetry omitted). -/
structure AggregatedResults where
  flights : List Flight
  providerResults : List (String × Int)
  providerErrors : List (String × String)
  deriving Repr, DecidableEq

/-- One iteration of the `for result := range results` loop in
`Aggregator.collectResults`. -/
def collectStep (acc : AggregatedResults) (r : ProviderResult) : AggregatedResults :=
  match r.error with
  | some e => { acc with providerErrors := mapInsert r.provider e acc.providerErrors }
  | none =>
      { acc with
        flights := acc.flights ++ r.flights
        providerResults := mapInsert r.provider (r.flights.length : Int) acc.providerResults }

/-- `Aggregator.collectResults`: fold the channel contents into the
aggregate, starting from empty maps and an empty flight list. -/
def collectResults (rs : List ProviderResult) : AggregatedResults :=
  rs.foldl collectStep ⟨[], [], []⟩

/-- The provider pre-selection step at the top of `Aggregator.SearchAll`:
when an airline filter is present and non-empty, keep the providers whose
lowercased name is a key of the lowercased airline set, but fall back to all
providers when no provider matched. -/
def selectProviders (provs : List Provider) (req : SearchRequest) : List Provider :=
  match req.filters with
  | some f =>
      if f.airlines.length > 0 then
        let filtered := provs.filter
          (fun p => f.airlines.any (fun a => goToLower a = goToLower p.name))
        if filtered.length > 0 then filtered else provs
      else provs
  | none => provs

/-- The tail of `Aggregator.SearchAll`: collect all outcomes, then surface a
top-level error exactly when the combined flight list is empty. -/
def searchAllResult (rs : List ProviderResult) : AggregatedResults × Option String :=
  if (collectResults rs).flights.length = 0 then
    (collectResults rs, some "no flights found from any provider")
  else (collectResults rs, none)

/-- The combined flight list of the fold: the concatenation of the flight
batches of the successful outcomes, in completion order. -/
theorem collect_foldl_flights (rs : List ProviderResult) (acc : AggregatedResults) :
    (rs.foldl collectStep acc).flights
      = acc.flights ++ (rs.filter (fun r => r.error = none)).flatMap (·.flights) := by
  induction rs generalizing acc with
  | nil => simp
  | cons r rest ih =>
    match hr : r.error with
    | some e => simp [collectStep, hr, ih]
    | none => simp [collectStep, hr, ih]

/-- A provider name that does not occur among the remaining outcomes keeps
its bindings in both maps across the rest of the fold. -/
theorem collect_foldl_lookup_frozen (rs : List ProviderResult) (acc : AggregatedResults)
    (k : String) (h : ∀ r ∈ rs, r.provider ≠ k) :
    mapLookup k (rs.foldl collectStep acc).providerResults
        = mapLookup k acc.providerResults
    ∧ mapLookup k (rs.foldl collectStep acc).providerErrors
        = mapLookup k acc.providerErrors := by
  induction rs generalizing acc with
  | nil => exact ⟨rfl, rfl⟩
  | cons r rest ih =>
    have hk : r.provider ≠ k := h r (by simp)
    have hrest : ∀ x ∈ rest, x.provider ≠ k := fun x hx => h x (by simp [hx])
    obtain ⟨ih1, ih2⟩ := ih (collectStep acc r) hrest
    constructor
    · rw [List.foldl_cons, ih1]
      match hr : r.error with
      | some e => simp [collectStep, hr]
      | none => simp [collectStep, hr, mapLookup_insert_ne _ _ _ _ (Ne.symm hk)]
    · rw [List.foldl_cons, ih2]
      match hr : r.error with
      | some e => simp [collectStep, hr, mapLookup_insert_ne _ _ _ _ (Ne.symm hk)]
      | none => simp [collectStep, hr]

/-- Key inventory of the two result maps produced by the fold: under
pairwise-distinct provider names that are fresh for the accumulator, the
success map holds exactly the successful providers and the error map exactly
the failed ones, and each binding carries the flight count resp. the error
message of that provider's outcome. -/
theorem collect_foldl_maps (rs : List ProviderResult) (acc : AggregatedResults)
    (hfresh1 : ∀ r ∈ rs, r.provider ∉ acc.providerResults.map Prod.fst)
    (hfresh2 : ∀ r ∈ rs, r.provider ∉ acc.providerErrors.map Prod.fst)
    (hnd : (rs.map (·.provider)).Nodup) :
    ((rs.foldl collectStep acc).providerResults.map Prod.fst
        = acc.providerResults.map Prod.fst
          ++ (rs.filter (fun r => r.error = none)).map (·.provider))
    ∧ ((rs.foldl collectStep acc).providerErrors.map Prod.fst
        = acc.providerErrors.map Prod.fst
          ++ (rs.filter (fun r => ¬ r.error = none)).map (·.provider))
    ∧ (∀ r ∈ rs, r.error = none →
        mapLookup r.provider (rs.foldl collectStep acc).providerResults
          = some (r.flights.length : Int))
    ∧ (∀ r ∈ rs, ∀ e, r.error = some e →
        mapLookup r.provider (rs.foldl collectStep acc).providerErrors = some e) := by
  induction rs generalizing acc with
  | nil => simp
  | cons r rest ih =>
    simp only [List.map_cons, List.nodup_cons, List.mem_map] at hnd
    obtain ⟨hnotin, hndrest⟩ := hnd
    have hr1 := hfresh1 r (by simp)
    have hr2 := hfresh2 r (by simp)
    have hne : ∀ y ∈ rest, y.provider ≠ r.provider := fun y hy hc => hnotin ⟨y, hy, hc⟩
    rcases hr : r.error with - | e
    · -- success outcome
      have hkeys1 : (collectStep acc r).providerResults.map Prod.fst
          = acc.providerResults.map Prod.fst ++ [r.provider] := by
        simp [collectStep, hr, mapInsert_keys, hr1]
      have hkeys2 : (collectStep acc r).providerErrors.map Prod.fst
          = acc.providerErrors.map Prod.fst := by
        simp [collectStep, hr]
      have f1 : ∀ x ∈ rest, x.provider ∉ (collectStep acc r).providerResults.map Prod.fst := by
        intro x hx
        rw [hkeys1]
        simp only [List.mem_append, List.mem_singleton]
        push_neg
        exact ⟨hfresh1 x (by simp [hx]), hne x hx⟩
      have f2 : ∀ x ∈ rest, x.provider ∉ (collectStep acc r).providerErrors.map Prod.fst := by
        intro x hx
        rw [hkeys2]
        exact hfresh2 x (by simp [hx])
      obtain ⟨ih1, ih2, ih3, ih4⟩ := ih (collectStep acc r) f1 f2 hndrest
      refine ⟨?_, ?_, ?_, ?_⟩
      · rw [List.foldl_cons, ih1, hkeys1]
        simp [hr]
      · rw [List.foldl_cons, ih2, hkeys2]
        simp [hr]
      · intro x hx hxe
        rcases List.mem_cons.mp hx with hx | hx
        · subst hx
          rw [List.foldl_cons,
            (collect_foldl_lookup_frozen rest (collectStep acc x) x.provider (hne)).1]
          simp [collectStep, hr, mapLookup_insert_self]
        · exact ih3 x hx hxe
      · intro x hx e hxe
        rcases List.mem_cons.mp hx with hx | hx
        · subst hx
          rw [hr] at hxe
          cases hxe
        · exact ih4 x hx e hxe
    · -- failed outcome
      have hkeys1 : (collectStep acc r).providerResults.map Prod.fst
          = acc.providerResults.map Prod.fst := by
        simp [collectStep, hr]
      have hkeys2 : (collectStep acc r).providerErrors.map Prod.fst
          = acc.providerErrors.map Prod.fst ++ [r.provider] := by
        simp [collectStep, hr, mapInsert_keys, hr2]
      have f1 : ∀ x ∈ rest, x.provider ∉ (collectStep acc r).providerResults.map Prod.fst := by
        intro x hx
        rw [hkeys1]
        exact hfresh1 x (by simp [hx])
      have f2 : ∀ x ∈ rest, x.provider ∉ (collectStep acc r).providerErrors.map Prod.fst := by
        intro x hx
        rw [hkeys2]
        simp only [List.mem_append, List.mem_singleton]
        push_neg
        exact ⟨hfresh2 x (by simp [hx]), hne x hx⟩
      obtain ⟨ih1, ih2, ih3, ih4⟩ := ih (collectStep acc r) f1 f2 hndrest
      refine ⟨?_, ?_, ?_, ?_⟩
      · rw [List.foldl_cons, ih1, hkeys1]
        simp [hr]
      · rw [List.foldl_cons, ih2, hkeys2]
        simp [hr]
      · intro x hx hxe
        rcases List.mem_cons.mp hx with hx | hx
        · subst hx
          rw [hr] at hxe
          cases hxe
        · exact ih3 x hx hxe
      · intro x hx e2 hxe
        rcases List.mem_cons.mp hx with hx | hx
        · subst hx
          rw [List.foldl_cons,
            (collect_foldl_lookup_frozen rest (collectStep acc x) x.provider (hne)).2]
          rw [hr] at hxe
          cases hxe
          simp [collectStep, hr, mapLookup_insert_self]
        · exact ih4 x hx e2 hxe

theorem searchAllResult_fst (rs : List ProviderResult) :
    (searchAllResult rs).1 = collectResults rs := by
  unfold searchAllResult
  split <;> rfl

/-- The flights of the aggregate are the concatenated batches of the
successful outcomes. -/
theorem collectResults_flights (rs : List ProviderResult) :
    (collectResults rs).flights
      = (rs.filter (fun r => r.error = none)).flatMap (·.flights) := by
  unfold collectResults
  rw [collect_foldl_flights]
  rfl

/-- The metadata assembly in `SearchService.Search` (sorter.go part,
lines 248–266): `providersQueried` is the size of the success map,
`providersSucceeded` counts success-map entries with a positive count,
`providersFailed` is the size of the error map, and `CacheHit` is `false`. -/
def mkSearchMetadata (flights : List Flight) (agg : AggregatedResults)
    (searchTimeMs : Int) : SearchMetadata :=
  { totalResults := (flights.length : Int)
    providersQueried := (agg.providerResults.length : Int)
    providersSucceeded := ((agg.providerResults.filter (fun p => 0 < p.2)).length : Int)
    providersFailed := (agg.providerErrors.length : Int)
    searchTimeMs := searchTimeMs
    cacheHit := false
    providerResults := agg.providerResults
    providerErrors := agg.providerErrors }

/-- **C5.** `Aggregator.SearchAll` returns a top-level error exactly when the
combined flight list is empty; in that case the error text is
`no flights found from any provider` and the aggregate (with its error map)
is still returned; with at least one flight the error is `nil`, and a failed
provider is recorded in the error map only — its message is retrievable
there and its name is absent from the success map. -/
theorem searchAll_toplevel_error_iff_no_flights (rs : List ProviderResult)
    (hnd : (rs.map (·.provider)).Nodup) :
    ((searchAllResult rs).2 ≠ none ↔ (searchAllResult rs).1.flights = [])
    ∧ ((searchAllResult rs).1.flights = [] →
        (searchAllResult rs).2 = some "no flights found from any provider")
    ∧ (searchAllResult rs).1 = collectResults rs
    ∧ (∀ r ∈ rs, ∀ e, r.error = some e →
        mapLookup r.provider (searchAllResult rs).1.providerErrors = some e
        ∧ r.provider ∉ (searchAllResult rs).1.providerResults.map Prod.fst) := by
  obtain ⟨hkeys1, hkeys2, hcnt, herr⟩ :=
    collect_foldl_maps rs ⟨[], [], []⟩ (by simp) (by simp) hnd
  have hinj : ∀ x ∈ rs, ∀ y ∈ rs, x.provider = y.provider → x = y :=
    List.inj_on_of_nodup_map hnd
  refine ⟨?_, ?_, searchAllResult_fst rs, ?_⟩
  · unfold searchAllResult
    split
    · rename_i h
      simp only [List.length_eq_zero] at h
      simp [h]
    · rename_i h
      simp only [List.length_eq_zero] at h
      simp [h]
  · intro hempty
    rw [searchAllResult_fst] at hempty
    unfold searchAllResult
    rw [hempty]
    rfl
  · intro r hr e hre
    rw [searchAllResult_fst]
    refine ⟨herr r hr e hre, ?_⟩
    show r.provider ∉ (rs.foldl collectStep ⟨[], [], []⟩).providerResults.map Prod.fst
    rw [hkeys1]
    simp only [List.nil_append, AggregatedResults.providerResults, List.map_nil,
      List.mem_map]
    rintro ⟨r2, hr2mem, hr2name⟩
    have hr2' := List.mem_filter.mp hr2mem
    have heq : r2 = r := hinj r2 hr2'.1 r hr hr2name
    subst heq
    rw [hre] at hr2'
    simp at hr2'

/-- **C6.** Provider pre-selection in `Aggregator.SearchAll`: with a
non-empty airline filter, the queried providers are exactly those whose name
matches one of the listed airlines case-insensitively; if no provider
matches, all providers are queried. -/
theorem searchAll_provider_preselection (provs : List Provider) (req : SearchRequest)
    (f : FilterOptions) (hf : req.filters = some f) (hne : f.airlines ≠ []) :
    ((∃ p ∈ provs, f.airlines.any (fun a => goToLower a = goToLower p.name) = true) →
      selectProviders provs req
        = provs.filter (fun p => f.airlines.any (fun a => goToLower a = goToLower p.name)))
    ∧ ((∀ p ∈ provs, f.airlines.any (fun a => goToLower a = goToLower p.name) = false) →
      selectProviders provs req = provs) := by
  have hlen : f.airlines.length > 0 := List.length_pos.mpr hne
  constructor
  · rintro ⟨p, hp, hmatch⟩
    unfold selectProviders
    rw [hf]
    simp only [hlen, if_pos]
    have : p ∈ provs.filter (fun p => f.airlines.any (fun a => goToLower a = goToLower p.name)) :=
      List.mem_filter.mpr ⟨hp, hmatch⟩
    have hpos : (provs.filter
        (fun p => f.airlines.any (fun a => goToLower a = goToLower p.name))).length > 0 :=
      List.length_pos.mpr (List.ne_nil_of_mem this)
    simp [hpos]
  · intro hnomatch
    unfold selectProviders
    rw [hf]
    simp only [hlen, if_pos]
    have : provs.filter (fun p => f.airlines.any (fun a => goToLower a = goToLower p.name)) = [] := by
      rw [List.filter_eq_nil_iff]
      intro p hp
      simp [hnomatch p hp]
    simp [this]

/-- **C10.** On a cache miss, `metadata.providers_queried` is the size of the
success map — the number of providers that returned without error — not the
number of providers contacted: a failed provider appears only in the error
map, and under partial failure `providers_queried` is strictly smaller than
the number of launched providers (one outcome per launched provider). -/
theorem metadata_providersQueried_counts_successes (rs : List ProviderResult)
    (fl : List Flight) (t : Int) (hnd : (rs.map (·.provider)).Nodup) :
    (mkSearchMetadata fl (collectResults rs) t).providersQueried
        = ((rs.filter (fun r => r.error = none)).length : Int)
    ∧ (∀ r ∈ rs, ∀ e, r.error = some e →
        r.provider ∉ (collectResults rs).providerResults.map Prod.fst
        ∧ r.provider ∈ (collectResults rs).providerErrors.map Prod.fst)
    ∧ ((∃ r ∈ rs, ¬ r.error = none) →
        (mkSearchMetadata fl (collectResults rs) t).providersQueried < (rs.length : Int)) := by
  obtain ⟨hkeys1, hkeys2, hcnt, herr⟩ :=
    collect_foldl_maps rs ⟨[], [], []⟩ (by simp) (by simp) hnd
  have hinj : ∀ x ∈ rs, ∀ y ∈ rs, x.provider = y.provider → x = y :=
    List.inj_on_of_nodup_map hnd
  have hqlen : (collectResults rs).providerResults.length
      = (rs.filter (fun r => r.error = none)).length := by
    have := congrArg List.length hkeys1
    simpa using this
  refine ⟨?_, ?_, ?_⟩
  · simp [mkSearchMetadata, hqlen]
  · intro r hr e hre
    constructor
    · show r.provider ∉ (rs.foldl collectStep ⟨[], [], []⟩).providerResults.map Prod.fst
      rw [hkeys1]
      simp only [AggregatedResults.providerResults, List.map_nil, List.nil_append,
        List.mem_map]
      rintro ⟨r2, hr2mem, hr2name⟩
      have hr2' := List.mem_filter.mp hr2mem
      have heq : r2 = r := hinj r2 hr2'.1 r hr hr2name
      subst heq
      rw [hre] at hr2'
      simp at hr2'
    · show r.provider ∈ (rs.foldl collectStep ⟨[], [], []⟩).providerErrors.map Prod.fst
      rw [hkeys2]
      simp only [AggregatedResults.providerErrors, List.map_nil, List.nil_append,
        List.mem_map]
      exact ⟨r, List.mem_filter.mpr ⟨hr, by simp [hre]⟩, rfl⟩
  · rintro ⟨r, hr, hre⟩
    have hlt : (rs.filter (fun r => r.error = none)).length < rs.length := by
      have hmono := List.length_filter_le (fun r : ProviderResult => r.error = none) rs
      rcases Nat.lt_or_ge (rs.filter (fun r => r.error = none)).length rs.length with h | h
      · exact h
      · exfalso
        have heq : (rs.filter (fun r => r.error = none)).length = rs.length := le_antisymm hmono h
        have := List.filter_length_eq_length.mp heq r hr
        simp only [decide_eq_true_eq] at this
        exact hre this
    simp only [mkSearchMetadata, hqlen]
    exact_mod_cast hlt

/-! ### Concrete data for witnesses -/

/-- A concrete unified flight record (CGK → DPS). -/
def sampleFlight : Flight :=
  { id := "GA123_Garuda Indonesia"
    provider := "Garuda Indonesia"
    flightNumber := "GA123"
    airline := ⟨"Garuda Indonesia", "GA"⟩
    departure := ⟨"CGK", "Jakarta", ⟨1765767600, 420⟩, 1765767600⟩
    arrival := ⟨"DPS", "Denpasar", ⟨1765774800, 480⟩, 1765774800⟩
    duration := ⟨120, "2h 0m"⟩
    stops := 0
    price := ⟨1250000, "IDR"⟩
    cabinClass := "economy"
    availableSeats := 20
    aircraft := "Boeing 737-800"
    amenities := ["WiFi"]
    baggage := ⟨"7kg", "20kg"⟩ }

/-- One successful and one failed provider outcome. -/
def mixedOutcomes : List ProviderResult :=
  [⟨"Garuda Indonesia", [sampleFlight], none⟩,
   ⟨"Lion Air", [], some "provider request timeout"⟩]

theorem searchAll_toplevel_error_iff_no_flights_witness :
    (mixedOutcomes.map (·.provider)).Nodup
    ∧ mapLookup "Lion Air" (searchAllResult mixedOutcomes).1.providerErrors
        = some "provider request timeout"
    ∧ (searchAllResult mixedOutcomes).2 = none := by
  have h := searchAll_toplevel_error_iff_no_flights mixedOutcomes (by decide)
  refine ⟨by decide, ?_, ?_⟩
  · exact (h.2.2.2 ⟨"Lion Air", [], some "provider request timeout"⟩ (by decide)
      "provider request timeout" rfl).1
  · by_contra hc
    have hne : (searchAllResult mixedOutcomes).2 ≠ none := hc
    have : (searchAllResult mixedOutcomes).1.flights = [] := h.1.mp hne
    exact (by decide : ¬ (searchAllResult mixedOutcomes).1.flights = []) this

/-- The four providers of the reference configuration. -/
def allProviders : List Provider :=
  [⟨"Garuda Indonesia"⟩, ⟨"Lion Air"⟩, ⟨"Batik Air"⟩, ⟨"AirAsia"⟩]

/-- A request whose airline filter names one provider (odd case). -/
def reqGaruda : SearchRequest :=
  { origin := "CGK", destination := "DPS", departureDate := "2025-12-15"
    returnDate := none, passengers := 1, cabinClass := "economy"
    filters := some ⟨none, none, none, ["garuda indonesia"], none, none, none⟩
    sortBy := "", sortOrder := "", returnFilters := none
    returnSortBy := "", returnSortOrder := "" }

/-- A request whose airline filter matches no provider. -/
def reqNonexistent : SearchRequest :=
  { origin := "CGK", destination := "DPS", departureDate := "2025-12-15"
    returnDate := none, passengers := 1, cabinClass := "economy"
    filters := some ⟨none, none, none, ["Nonexistent"], none, none, none⟩
    sortBy := "", sortOrder := "", returnFilters := none
    returnSortBy := "", returnSortOrder := "" }

theorem searchAll_provider_preselection_witness :
    selectProviders allProviders reqGaruda = [⟨"Garuda Indonesia"⟩]
    ∧ selectProviders allProviders reqNonexistent = allProviders := by
  constructor
  · have h := (searchAll_provider_preselection allProviders reqGaruda
      ⟨none, none, none, ["garuda indonesia"], none, none, none⟩ rfl (by decide)).1
      ⟨⟨"Garuda Indonesia"⟩, by decide, by decide⟩
    rw [h]
    decide
  · exact (searchAll_provider_preselection allProviders reqNonexistent
      ⟨none, none, none, ["Nonexistent"], none, none, none⟩ rfl (by decide)).2
      (by decide)

theorem metadata_providersQueried_counts_successes_witness :
    (mixedOutcomes.map (·.provider)).Nodup
    ∧ (mkSearchMetadata [sampleFlight] (collectResults mixedOutcomes) 0).providersQueried = 1
    ∧ (mkSearchMetadata [sampleFlight] (collectResults mixedOutcomes) 0).providersQueried
        < (mixedOutcomes.length : Int) := by
  have h := metadata_providersQueried_counts_successes mixedOutcomes [sampleFlight] 0 (by decide)
  exact ⟨by decide, h.1.trans (by decide),
    h.2.2 ⟨⟨"Lion Air", [], some "provider request timeout"⟩, by decide, by decide⟩⟩

/-! ## Retry executor (pkg/retry)

`RetryWithCheck` is embedded with the cancellation token taken to be never
cancelled (the claim under scrutiny does not involve cancellation; both
`ctx.Done()` checks then fall through).  The operation is modelled as a
function from the attempt number (starting at 1, as in the Go loop) to that
attempt's outcome, and the embedding returns the result together with the
number of attempts made and the list of backoff waits performed, in order.
Delays are in nanoseconds (Go `time.Duration`); the `float64` backoff
multiplier is an exact rational and the `time.Duration(float64(d) * m)`
conversion truncates toward zero. -/

/-- `retry.Params` (`MaxAttempts`, `InitialDelay`, `MaxDelay`,
`BackoffMultiplier`). -/
structure RetryParams where
  maxAttempts : Nat
  initialDelay : Int
  maxDelay : Int
  multiplier : ℚ
  deriving Repr, DecidableEq

/-- The `(error, retryable?)` pair returned by one invocation of the
operation. -/
inductive AttemptOutcome where
  | ok : AttemptOutcome
  | fail (err : String) (retryable : Bool) : AttemptOutcome
  deriving Repr, DecidableEq

/-- Go's `float64` → `int64` conversion truncates toward zero. -/
def truncQ (q : ℚ) : Int := if q < 0 then ⌈q⌉ else ⌊q⌋

/-- The backoff update after a retryable failure:
`currentDelay = time.Duration(float64(currentDelay) * multiplier)`, then
capped at `MaxDelay`. -/
def nextDelay (p : RetryParams) (cur : Int) : Int :=
  if truncQ (p.multiplier * (cur : ℚ)) > p.maxDelay then p.maxDelay
  else truncQ (p.multiplier * (cur : ℚ))

/-- The message of the error returned on exhaustion:
`fmt.Errorf("%s: failed after %d attempts: %w", operationName, maxAttempts, lastErr)`
(`lastErr` is `nil` only when the loop body never ran, i.e. `MaxAttempts < 1`,
in which case Go's `%w` renders the text below). -/
def wrapExhausted (label : String) (maxA : Nat) (lastErr : Option String) : String :=
  label ++ ": failed after " ++ toString maxA ++ " attempts: " ++
    (match lastErr with
     | some e => e
     | none => "%!w(<nil>)")

/-- The attempt loop of `RetryWithCheck`.  `attemptsLeft` is the remaining
fuel (`maxAttempts - attempt + 1` in the Go loop), `idx` is the current
attempt number, `cur` the current backoff delay, `lastErr` the last recorded
error.  Returns `(result, attempts made, waits performed)`. -/
def retryAux (p : RetryParams) (fn : Nat → AttemptOutcome) (label : String) :
    Nat → Nat → Int → Option String → Option String × Nat × List Int
  | 0, idx, _, lastErr => (some (wrapExhausted label p.maxAttempts lastErr), idx - 1, [])
  | left + 1, idx, cur, _ =>
    match fn idx with
    | .ok => (none, idx, [])
    | .fail e r =>
      if r = false then (some e, idx, [])
      else if left = 0 then (some (wrapExhausted label p.maxAttempts (some e)), idx, [])
      else
        let rest := retryAux p fn label left (idx + 1) (nextDelay p cur) (some e)
        (rest.1, rest.2.1, cur :: rest.2.2)

/-- `retry.RetryWithCheck` with a never-cancelled context. -/
def retryWithCheck (p : RetryParams) (fn : Nat → AttemptOutcome) (label : String) :
    Option String × Nat × List Int :=
  retryAux p fn label p.maxAttempts 1 p.initialDelay none

/-- The backoff sequence the loop walks, starting from a given delay. -/
def delayFrom (p : RetryParams) (cur : Int) : Nat → Int
  | 0 => cur
  | n + 1 => nextDelay p (delayFrom p cur n)

/-- The backoff sequence from `InitialDelay`. -/
def delaySeq (p : RetryParams) (n : Nat) : Int := delayFrom p p.initialDelay n

theorem delayFrom_shift (p : RetryParams) (cur : Int) (n : Nat) :
    delayFrom p (nextDelay p cur) n = delayFrom p cur (n + 1) := by
  induction n with
  | zero => rfl
  | succ n ih => simp only [delayFrom, ih]

/-- The attempt counter returned by the loop never precedes the attempt it
started at (as long as there is fuel). -/
theorem retryAux_made_ge (p : RetryParams) (fn : Nat → AttemptOutcome) (label : String) :
    ∀ left idx cur le, 1 ≤ left → idx ≤ (retryAux p fn label left idx cur le).2.1 := by
  intro left
  induction left with
  | zero => omega
  | succ left ih =>
    intro idx cur le _
    show idx ≤ (retryAux p fn label (left + 1) idx cur le).2.1
    unfold retryAux
    match hfn : fn idx with
    | .ok => simp
    | .fail e r =>
      cases r with
      | false => simp
      | true =>
        by_cases hl : left = 0
        · simp [hl]
        · have h1 : 1 ≤ left := Nat.one_le_iff_ne_zero.mpr hl
          have := ih (idx + 1) (nextDelay p cur) (some e) h1
          simp only [Bool.true_eq_false, if_false, hl]
          omega

/-- The backoff waits performed are exactly the first `made - idx` entries of
the capped-geometric delay sequence from the starting delay. -/
theorem retryAux_delays (p : RetryParams) (fn : Nat → AttemptOutcome) (label : String) :
    ∀ left idx cur le,
      (retryAux p fn label left idx cur le).2.2
        = (List.range ((retryAux p fn label left idx cur le).2.1 - idx)).map
            (delayFrom p cur) := by
  intro left
  induction left with
  | zero =>
    intro idx cur le
    show ([] : List Int) = (List.range (idx - 1 - idx)).map (delayFrom p cur)
    have : idx - 1 - idx = 0 := by omega
    rw [this]
    rfl
  | succ left ih =>
    intro idx cur le
    show (retryAux p fn label (left + 1) idx cur le).2.2
        = (List.range ((retryAux p fn label (left + 1) idx cur le).2.1 - idx)).map
            (delayFrom p cur)
    unfold retryAux
    match hfn : fn idx with
    | .ok => simp
    | .fail e r =>
      cases r with
      | false => simp
      | true =>
        by_cases hl : left = 0
        · simp [hl]
        · have h1 : 1 ≤ left := Nat.one_le_iff_ne_zero.mpr hl
          have hge := retryAux_made_ge p fn label left (idx + 1) (nextDelay p cur) (some e) h1
          have hw := ih (idx + 1) (nextDelay p cur) (some e)
          simp only [Bool.true_eq_false, if_false, hl]
          rw [hw]
          have hk : (retryAux p fn label left (idx + 1) (nextDelay p cur) (some e)).2.1 - idx
              = ((retryAux p fn label left (idx + 1) (nextDelay p cur) (some e)).2.1
                  - (idx + 1)) + 1 := by omega
          rw [hk, List.range_succ_eq_map]
          simp only [List.map_cons, List.map_map, delayFrom]
          congr 1
          apply List.map_congr_left
          intro n _
          show delayFrom p (nextDelay p cur) n = delayFrom p cur (n + 1)
          exact delayFrom_shift p cur n

/-- If every attempt before `k` fails retryably and attempt `k` (within the
attempt budget) succeeds, the loop returns `nil` after exactly `k` attempts. -/
theorem retryAux_success (p : RetryParams) (fn : Nat → AttemptOutcome) (label : String) :
    ∀ left idx cur le k, idx ≤ k → k < idx + left →
      (∀ i, idx ≤ i → i < k → ∃ e, fn i = AttemptOutcome.fail e true) →
      fn k = AttemptOutcome.ok →
      (retryAux p fn label left idx cur le).1 = none
      ∧ (retryAux p fn label left idx cur le).2.1 = k := by
  intro left
  induction left with
  | zero => omega
  | succ left ih =>
    intro idx cur le k hk1 hk2 hpre hok
    rcases Nat.eq_or_lt_of_le hk1 with heq | hlt
    · subst heq
      unfold retryAux
      rw [hok]
      exact ⟨rfl, rfl⟩
    · obtain ⟨e, hfe⟩ := hpre idx (le_refl idx) hlt
      have hl : left ≠ 0 := by omega
      unfold retryAux
      rw [hfe]
      simp only [Bool.true_eq_false, if_false, hl]
      exact ih (idx + 1) (nextDelay p cur) (some e) k hlt (by omega)
        (fun i hi1 hi2 => hpre i (by omega) hi2) hok

/-- If every attempt before `k` fails retryably and attempt `k` (within the
attempt budget) fails non-retryably, the loop stops at attempt `k` and
returns that error unchanged. -/
theorem retryAux_nonretryable (p : RetryParams) (fn : Nat → AttemptOutcome) (label : String) :
    ∀ left idx cur le k e, idx ≤ k → k < idx + left →
      (∀ i, idx ≤ i → i < k → ∃ e2, fn i = AttemptOutcome.fail e2 true) →
      fn k = AttemptOutcome.fail e false →
      (retryAux p fn label left idx cur le).1 = some e
      ∧ (retryAux p fn label left idx cur le).2.1 = k := by
  intro left
  induction left with
  | zero => omega
  | succ left ih =>
    intro idx cur le k e hk1 hk2 hpre hfail
    rcases Nat.eq_or_lt_of_le hk1 with heq | hlt
    · subst heq
      unfold retryAux
      rw [hfail]
      exact ⟨rfl, rfl⟩
    · obtain ⟨e2, hfe⟩ := hpre idx (le_refl idx) hlt
      have hl : left ≠ 0 := by omega
      unfold retryAux
      rw [hfe]
      simp only [Bool.true_eq_false, if_false, hl]
      exact ih (idx + 1) (nextDelay p cur) (some e2) k e hlt (by omega)
        (fun i hi1 hi2 => hpre i (by omega) hi2) hfail

/-- If all attempts of the budget fail retryably, the loop makes every
attempt and returns the last error wrapped with the operation label. -/
theorem retryAux_exhausted (p : RetryParams) (fn : Nat → AttemptOutcome) (label : String) :
    ∀ left idx cur le e, 1 ≤ left →
      (∀ i, idx ≤ i → i < idx + left → ∃ e2, fn i = AttemptOutcome.fail e2 true) →
      fn (idx + left - 1) = AttemptOutcome.fail e true →
      (retryAux p fn label left idx cur le).1
          = some (wrapExhausted label p.maxAttempts (some e))
      ∧ (retryAux p fn label left idx cur le).2.1 = idx + left - 1 := by
  intro left
  induction left with
  | zero => omega
  | succ left ih =>
    intro idx cur le e _ hall hlast
    by_cases hl : left = 0
    · subst hl
      have hx : idx + 1 - 1 = idx := by omega
      rw [hx] at hlast
      unfold retryAux
      rw [hlast]
      exact ⟨rfl, rfl⟩
    · obtain ⟨e0, hfe⟩ := hall idx (le_refl idx) (by omega)
      have h1 : 1 ≤ left := Nat.one_le_iff_ne_zero.mpr hl
      have hlast2 : fn (idx + 1 + left - 1) = AttemptOutcome.fail e true := by
        have : idx + 1 + left - 1 = idx + (left + 1) - 1 := by omega
        rw [this]
        exact hlast
      have hres := ih (idx + 1) (nextDelay p cur) (some e0) e h1
        (fun i hi1 hi2 => hall i (by omega) (by omega)) hlast2
      unfold retryAux
      rw [hfe]
      simp only [Bool.true_eq_false, if_false, hl]
      refine ⟨hres.1, ?_⟩
      rw [hres.2]
      omega

/-- **C7.** `RetryWithCheck`: returns `nil` as soon as an attempt succeeds;
stops immediately on a non-retryable failure, returning that error
unchanged; waits between attempts following the sequence that starts at
`InitialDelay` and is multiplied by the backoff multiplier after each
failure, capped at `MaxDelay`; and after `MaxAttempts` retryable failures
returns the last error wrapped with the operation label. -/
theorem retryWithCheck_spec (p : RetryParams) (fn : Nat → AttemptOutcome) (label : String) :
    (∀ k, 1 ≤ k → k ≤ p.maxAttempts →
      (∀ i, 1 ≤ i → i < k → ∃ e, fn i = AttemptOutcome.fail e true) →
      fn k = AttemptOutcome.ok →
      (retryWithCheck p fn label).1 = none ∧ (retryWithCheck p fn label).2.1 = k)
    ∧ (∀ k e, 1 ≤ k → k ≤ p.maxAttempts →
      (∀ i, 1 ≤ i → i < k → ∃ e2, fn i = AttemptOutcome.fail e2 true) →
      fn k = AttemptOutcome.fail e false →
      (retryWithCheck p fn label).1 = some e ∧ (retryWithCheck p fn label).2.1 = k)
    ∧ (∀ e, 1 ≤ p.maxAttempts →
      (∀ i, 1 ≤ i → i ≤ p.maxAttempts → ∃ e2, fn i = AttemptOutcome.fail e2 true) →
      fn p.maxAttempts = AttemptOutcome.fail e true →
      (retryWithCheck p fn label).1
        = some (label ++ ": failed after " ++ toString p.maxAttempts ++ " attempts: " ++ e))
    ∧ (retryWithCheck p fn label).2.2
        = (List.range ((retryWithCheck p fn label).2.1 - 1)).map (delaySeq p) := by
  refine ⟨?_, ?_, ?_, ?_⟩
  · intro k hk1 hk2 hpre hok
    exact retryAux_success p fn label p.maxAttempts 1 p.initialDelay none k hk1 (by omega)
      hpre hok
  · intro k e hk1 hk2 hpre hfail
    exact retryAux_nonretryable p fn label p.maxAttempts 1 p.initialDelay none k e hk1
      (by omega) hpre hfail
  · intro e hmax hall hlast
    have hlast2 : fn (1 + p.maxAttempts - 1) = AttemptOutcome.fail e true := by
      have : 1 + p.maxAttempts - 1 = p.maxAttempts := by omega
      rw [this]
      exact hlast
    have h := retryAux_exhausted p fn label p.maxAttempts 1 p.initialDelay none e hmax
      (fun i hi1 hi2 => hall i hi1 (by omega)) hlast2
    exact h.1
  · exact retryAux_delays p fn label p.maxAttempts 1 p.initialDelay none

/-- A concrete run for the retry claim: delays 100 → 200 → 400 ns capped at
300 ns, success on the third attempt. -/
def flakyOp : Nat → AttemptOutcome :=
  fun i => if i < 3 then AttemptOutcome.fail "provider unavailable" true else AttemptOutcome.ok

theorem retryWithCheck_spec_witness :
    ((retryWithCheck ⟨5, 100, 300, 2⟩ flakyOp "provider Lion Air").1 = none
      ∧ (retryWithCheck ⟨5, 100, 300, 2⟩ flakyOp "provider Lion Air").2.1 = 3)
    ∧ (retryWithCheck ⟨5, 100, 300, 2⟩ flakyOp "provider Lion Air").2.2 = [100, 200] := by
  have h := retryWithCheck_spec ⟨5, 100, 300, 2⟩ flakyOp "provider Lion Air"
  have hpre : ∀ i, 1 ≤ i → i < 3 →
      ∃ e, flakyOp i = AttemptOutcome.fail e true := by
    intro i hi1 hi2
    interval_cases i
    · exact ⟨"provider unavailable", by decide⟩
    · exact ⟨"provider unavailable", by decide⟩
  have hmain := h.1 3 (by omega) (by decide) hpre (by decide)
  refine ⟨hmain, ?_⟩
  rw [h.2.2.2, hmain.2]
  have hr : List.range (3 - 1) = [0, 1] := by decide
  rw [hr]
  simp only [List.map_cons, List.map_nil, delaySeq, delayFrom, nextDelay, truncQ]
  norm_num

/-! ## Cache (internal/cache)

Real time is made explicit: every operation takes `now`, the value
`time.Now()` would return, in seconds.  The background sweeper is
`removeExpiredEntries`; `cacheGet` takes no locks in the model since the
claims concern its sequential contract. -/

/-- `cache.CacheEntry`. -/
structure CacheEntry (α : Type) where
  data : α
  expiresAt : Int
  deriving Repr, DecidableEq

/-- `CacheEntry.IsExpired`: `time.Now().After(e.ExpiresAt)`. -/
def CacheEntry.isExpired {α : Type} (e : CacheEntry α) (now : Int) : Bool :=
  now > e.expiresAt

/-- `cache.Stats`. -/
structure CacheStats where
  hits : Int
  misses : Int
  evictions : Int
  expirations : Int
  currentSize : Int
  totalRequests : Int
  deriving Repr, DecidableEq

/-- `cache.Cache`. -/
structure GoCache (α : Type) where
  data : List (String × CacheEntry α)
  ttl : Int
  stats : CacheStats
  deriving Repr, DecidableEq

/-- `cache.New`. -/
def cacheNew (α : Type) (ttl : Int) : GoCache α := ⟨[], ttl, ⟨0, 0, 0, 0, 0, 0⟩⟩

/-- `Cache.Set`: store the value with expiry `now + ttl` and refresh the
size statistic. -/
def cacheSet {α : Type} (c : GoCache α) (now : Int) (k : String) (v : α) : GoCache α :=
  let d := mapInsert k ⟨v, now + c.ttl⟩ c.data
  { c with data := d, stats := { c.stats with currentSize := (d.length : Int) } }

/-- `Cache.Get`: a hit only for a present, unexpired entry; an expired entry
is reported as a miss (counted as miss and expiration) but not deleted —
removal is left to the sweeper. -/
def cacheGet {α : Type} (c : GoCache α) (now : Int) (k : String) : Option α × GoCache α :=
  let s0 := { c.stats with totalRequests := c.stats.totalRequests + 1 }
  match mapLookup k c.data with
  | none => (none, { c with stats := { s0 with misses := s0.misses + 1 } })
  | some e =>
    if e.isExpired now then
      (none, { c with stats :=
        { s0 with misses := s0.misses + 1, expirations := s0.expirations + 1 } })
    else (some e.data, { c with stats := { s0 with hits := s0.hits + 1 } })

/-- `Cache.removeExpiredEntries`, the sweeper body: drop every entry with
`now > expiresAt`. -/
def removeExpiredEntries {α : Type} (c : GoCache α) (now : Int) : GoCache α :=
  let d := c.data.filter (fun p => ¬ now > p.2.expiresAt)
  let removed := (c.data.length : Int) - (d.length : Int)
  if removed > 0 then
    { c with data := d, stats :=
      { c.stats with expirations := c.stats.expirations + removed
                     currentSize := (d.length : Int) } }
  else { c with data := d }

/-- **C8.** `Cache.Get` never returns an expired value: with an entry
present, it is a hit exactly while `now` has not passed `expiresAt` — even
though the expired entry is still stored (the sweeper has not run; `Get`
leaves the data map untouched).  A `Get` within TTL after a `Set` of the
same key returns the stored value and increments the hit counter; past the
TTL it is a miss. -/
theorem cacheGet_never_expired {α : Type} (c : GoCache α) (now t2 : Int) (k : String)
    (v : α) (e : CacheEntry α) :
    (mapLookup k c.data = some e →
      ((cacheGet c now k).1 = some e.data ↔ ¬ now > e.expiresAt)
      ∧ (now > e.expiresAt → (cacheGet c now k).1 = none))
    ∧ (cacheGet c now k).2.data = c.data
    ∧ (t2 ≤ now + c.ttl →
        (cacheGet (cacheSet c now k v) t2 k).1 = some v
        ∧ (cacheGet (cacheSet c now k v) t2 k).2.stats.hits
            = (cacheSet c now k v).stats.hits + 1)
    ∧ (t2 > now + c.ttl → (cacheGet (cacheSet c now k v) t2 k).1 = none) := by
  refine ⟨?_, ?_, ?_, ?_⟩
  · intro hlook
    unfold cacheGet
    rw [hlook]
    constructor
    · by_cases hexp : e.isExpired now
      · simp only [hexp, if_true]
        unfold CacheEntry.isExpired at hexp
        simp only [decide_eq_true_eq] at hexp
        constructor
        · intro h
          cases h
        · intro h
          exact absurd hexp h
      · simp only [hexp, if_false]
        unfold CacheEntry.isExpired at hexp
        simp only [decide_eq_true_eq] at hexp
        simp [hexp]
    · intro hgt
      have hexp : e.isExpired now = true := by
        unfold CacheEntry.isExpired
        simp [hgt]
      simp [hexp]
  · unfold cacheGet
    match mapLookup k c.data with
    | none => rfl
    | some e => by_cases hexp : e.isExpired now <;> simp [hexp]
  · intro hle
    have hlook : mapLookup k (cacheSet c now k v).data = some ⟨v, now + c.ttl⟩ := by
      unfold cacheSet
      exact mapLookup_insert_self k _ c.data
    have hexp : (CacheEntry.mk v (now + c.ttl)).isExpired t2 = false := by
      unfold CacheEntry.isExpired
      simp only [decide_eq_false_iff_not]
      omega
    constructor
    · simp [cacheGet, hlook, hexp]
    · simp [cacheGet, hlook, hexp]
  · intro hgt
    have hlook : mapLookup k (cacheSet c now k v).data = some ⟨v, now + c.ttl⟩ := by
      unfold cacheSet
      exact mapLookup_insert_self k _ c.data
    have hexp : (CacheEntry.mk v (now + c.ttl)).isExpired t2 = true := by
      unfold CacheEntry.isExpired
      simp only [decide_eq_true_eq]
      omega
    simp [cacheGet, hlook, hexp]

theorem cacheGet_never_expired_witness :
    ((10 : Int) ≤ 0 + 60 ∧ (100 : Int) > 0 + 60)
    ∧ (cacheGet (cacheSet (cacheNew Nat 60) 0 "search:abc" 7) 10 "search:abc").1 = some 7
    ∧ (cacheGet (cacheSet (cacheNew Nat 60) 0 "search:abc" 7) 100 "search:abc").1 = none := by
  have h1 := cacheGet_never_expired (cacheNew Nat 60) 0 10 "search:abc" 7
    ⟨7, 60⟩
  have h2 := cacheGet_never_expired (cacheNew Nat 60) 0 100 "search:abc" 7
    ⟨7, 60⟩
  exact ⟨by omega, (h1.2.2.1 (by norm_num [cacheNew])).1, h2.2.2.2 (by norm_num [cacheNew])⟩

/-! ## Cache keys (cache.GenerateKey)

`GenerateKey` serializes the request with `encoding/json`, hashes the bytes
with SHA-256 and renders the first 8 bytes as lowercase hex after the
prefix.  The JSON encoder is embedded for the `SearchRequest` shape: Go
struct-field order, the `json:"..."` tag names, `omitempty` semantics
(pointers and slices omitted when nil/empty, strings when empty), string
escaping with HTML-escape defaults, and decimal rendering of numbers
(exact for integral values; non-integral `float64` filter prices render
their exact decimal expansion).  SHA-256 itself is embedded over byte lists
with 32-bit words as `Nat` reduced `% 2^32`. -/

/-- 2^32, the word modulus of SHA-256. -/
def m32 : Nat := 4294967296

/-- Right-rotation of a 32-bit word. -/
def rotr32 (k x : Nat) : Nat := (x / 2 ^ k + (x % 2 ^ k) * 2 ^ (32 - k)) % m32

/-- The 64 SHA-256 round constants. -/
def sha256K : List Nat :=
  [1116352408, 1899447441, 3049323471, 3921009573, 961987163, 1508970993,
   2453635748, 2870763221, 3624381080, 310598401, 607225278, 1426881987,
   1925078388, 2162078206, 2614888103, 3248222580, 3835390401, 4022224774,
   264347078, 604807628, 770255983, 1249150122, 1555081692, 1996064986,
   2554220882, 2821834349, 2952996808, 3210313671, 3336571891, 3584528711,
   113926993, 338241895, 666307205, 773529912, 1294757372, 1396182291,
   1695183700, 1986661051, 2177026350, 2456956037, 2730485921, 2820302411,
   3259730800, 3345764771, 3516065817, 3600352804, 4094571909, 275423344,
   430227734, 506948616, 659060556, 883997877, 958139571, 1322822218,
   1537002063, 1747873779, 1955562222, 2024104815, 2227730452, 2361852424,
   2428436474, 2756734187, 3204031479, 3329325298]

/-- The eight 32-bit words of the SHA-256 chaining state. -/
structure Sha256State where
  h0 : Nat
  h1 : Nat
  h2 : Nat
  h3 : Nat
  h4 : Nat
  h5 : Nat
  h6 : Nat
  h7 : Nat
  deriving Repr, DecidableEq

/-- The SHA-256 initialization vector. -/
def sha256Init : Sha256State :=
  ⟨1779033703, 3144134277, 1013904242, 2773480762, 1359893119, 2600822924, 528734635, 1541459225⟩

/-- Merkle–Damgård padding: `0x80`, zeros to 56 mod 64, and the bit length
as a 64-bit big-endian number. -/
def padMessage (msg : List Nat) : List Nat :=
  let len := msg.length
  let bitLen := len * 8
  let padZeros := (55 - len % 64 + 64) % 64
  msg ++ [0x80] ++ List.replicate padZeros 0 ++
    [bitLen / 2 ^ 56 % 256, bitLen / 2 ^ 48 % 256, bitLen / 2 ^ 40 % 256, bitLen / 2 ^ 32 % 256,
     bitLen / 2 ^ 24 % 256, bitLen / 2 ^ 16 % 256, bitLen / 2 ^ 8 % 256, bitLen % 256]

/-- Big-endian grouping of bytes into 32-bit words. -/
def bytesToWords : List Nat → List Nat
  | b0 :: b1 :: b2 :: b3 :: rest =>
      (b0 * 2 ^ 24 + b1 * 2 ^ 16 + b2 * 2 ^ 8 + b3) :: bytesToWords rest
  | _ => []

/-- σ₀ of the SHA-256 message schedule. -/
def smallSigma0 (x : Nat) : Nat := Nat.xor (Nat.xor (rotr32 7 x) (rotr32 18 x)) (x / 2 ^ 3)

/-- σ₁ of the SHA-256 message schedule. -/
def smallSigma1 (x : Nat) : Nat := Nat.xor (Nat.xor (rotr32 17 x) (rotr32 19 x)) (x / 2 ^ 10)

/-- Σ₀ of the SHA-256 compression function. -/
def bigSigma0 (x : Nat) : Nat := Nat.xor (Nat.xor (rotr32 2 x) (rotr32 13 x)) (rotr32 22 x)

/-- Σ₁ of the SHA-256 compression function. -/
def bigSigma1 (x : Nat) : Nat := Nat.xor (Nat.xor (rotr32 6 x) (rotr32 11 x)) (rotr32 25 x)

/-- Extend the message schedule; the accumulator holds the words produced so
far, most recent first, so `w[t-k]` is entry `k-1`. -/
def extendSchedule : Nat → List Nat → List Nat
  | 0, w => w.reverse
  | n + 1, w =>
    extendSchedule n
      (((smallSigma1 (w.getD 1 0) + w.getD 6 0 + smallSigma0 (w.getD 14 0)
          + w.getD 15 0) % m32) :: w)

/-- The 64-word message schedule of one block. -/
def buildSchedule (block : List Nat) : List Nat :=
  extendSchedule 48 block.reverse

/-- One round of the SHA-256 compression function (`Ch` and `Maj` written
with `Nat` bitwise operations; the complement of `x` below 2^32 is
`2^32 - 1 - x`). -/
def compressRound (st : Sha256State) (kw : Nat × Nat) : Sha256State :=
  let ch := Nat.xor (Nat.land st.h4 st.h5) (Nat.land (m32 - 1 - st.h4) st.h6)
  let maj := Nat.xor (Nat.xor (Nat.land st.h0 st.h1) (Nat.land st.h0 st.h2))
    (Nat.land st.h1 st.h2)
  let t1 := (st.h7 + bigSigma1 st.h4 + ch + kw.1 + kw.2) % m32
  let t2 := (bigSigma0 st.h0 + maj) % m32
  ⟨(t1 + t2) % m32, st.h0, st.h1, st.h2, (st.h3 + t1) % m32, st.h4, st.h5, st.h6⟩

/-- Process one 512-bit block. -/
def processBlock (st : Sha256State) (block : List Nat) : Sha256State :=
  let w := buildSchedule block
  let f := (sha256K.zip w).foldl compressRound st
  ⟨(st.h0 + f.h0) % m32, (st.h1 + f.h1) % m32, (st.h2 + f.h2) % m32, (st.h3 + f.h3) % m32,
   (st.h4 + f.h4) % m32, (st.h5 + f.h5) % m32, (st.h6 + f.h6) % m32, (st.h7 + f.h7) % m32⟩

/-- Process `n` consecutive 64-byte chunks. -/
def processChunks : Nat → Sha256State → List Nat → Sha256State
  | 0, st, _ => st
  | n + 1, st, l => processChunks n (processBlock st (bytesToWords (l.take 64))) (l.drop 64)

/-- Big-endian bytes of a 32-bit word. -/
def word2bytes (w : Nat) : List Nat := [w / 2 ^ 24 % 256, w / 2 ^ 16 % 256, w / 2 ^ 8 % 256, w % 256]

/-- `crypto/sha256.Sum256` over a byte list. -/
def sha256Bytes (msg : List Nat) : List Nat :=
  let padded := padMessage msg
  let st := processChunks (padded.length / 64) sha256Init padded
  word2bytes st.h0 ++ word2bytes st.h1 ++ word2bytes st.h2 ++ word2bytes st.h3 ++
  word2bytes st.h4 ++ word2bytes st.h5 ++ word2bytes st.h6 ++ word2bytes st.h7

/-- A lowercase hexadecimal digit. -/
def hexDigitChar (n : Nat) : Char := if n < 10 then Char.ofNat (48 + n) else Char.ofNat (87 + n)

/-- Go's `%x` rendering of a byte slice: two lowercase hex digits per byte. -/
def bytesToHex (bs : List Nat) : String :=
  ⟨bs.flatMap (fun b => [hexDigitChar (b / 16 % 16), hexDigitChar (b % 16)])⟩

example :
    bytesToHex (sha256Bytes [])
      = "e3b0c44298fc1c149afbf4c8996fb92427ae41e4649b934ca495991b7852b855" := by decide

/-- UTF-8 encoding of one character. -/
def utf8EncodeChar (c : Char) : List Nat :=
  let n := c.toNat
  if n < 0x80 then [n]
  else if n < 0x800 then [0xC0 + n / 64, 0x80 + n % 64]
  else if n < 0x10000 then [0xE0 + n / 4096, 0x80 + n / 64 % 64, 0x80 + n % 64]
  else [0xF0 + n / 262144, 0x80 + n / 4096 % 64, 0x80 + n / 64 % 64, 0x80 + n % 64]

/-- The UTF-8 bytes of a string (Go `[]byte(s)`). -/
def strToBytes (s : String) : List Nat := s.data.flatMap utf8EncodeChar

/-- `encoding/json` string escaping with the default HTML escaping:
quote, backslash, newline, carriage return, tab, other control characters,
`<`, `>`, `&`, and U+2028/U+2029. -/
def jsonEscapeChar (c : Char) : List Char :=
  if c = '"' then ['\\', '"']
  else if c = '\\' then ['\\', '\\']
  else if c = '\n' then ['\\', 'n']
  else if c = '\r' then ['\\', 'r']
  else if c = '\t' then ['\\', 't']
  else if c = '<' then '\\' :: 'u' :: '0' :: '0' :: '3' :: ['c']
  else if c = '>' then '\\' :: 'u' :: '0' :: '0' :: '3' :: ['e']
  else if c = '&' then '\\' :: 'u' :: '0' :: '0' :: '2' :: ['6']
  else if c.toNat < 32 then
    '\\' :: 'u' :: '0' :: '0' :: [hexDigitChar (c.toNat / 16), hexDigitChar (c.toNat % 16)]
  else if c.toNat = 0x2028 then '\\' :: 'u' :: '2' :: '0' :: '2' :: ['8']
  else if c.toNat = 0x2029 then '\\' :: 'u' :: '2' :: '0' :: '2' :: ['9']
  else [c]

/-- A JSON string literal. -/
def jsonString (s : String) : String :=
  "\"" ++ String.mk (s.data.flatMap jsonEscapeChar) ++ "\""

/-- Decimal digits of the fractional part `r / d` (with fuel; the expansion
of the dyadic `float64` values of the program terminates). -/
def fracDigits : Nat → Nat → Nat → List Char
  | 0, _, _ => []
  | _, 0, _ => []
  | fuel + 1, r, d => Char.ofNat (48 + r * 10 / d) :: fracDigits fuel (r * 10 % d) d

/-- JSON rendering of a `float64` modelled as `ℚ`: integral values as
integers (as Go prints them below 1e21), other values by their exact
decimal expansion. -/
def jsonNumber (q : ℚ) : String :=
  if q.den = 1 then toString q.num
  else
    (if q < 0 then "-" else "")
      ++ toString (q.num.natAbs / q.den) ++ "."
      ++ String.mk (fracDigits 64 (q.num.natAbs % q.den) q.den)

/-- JSON object for `models.TimeRange` (fields `start`, `end`). -/
def marshalTimeRange (t : TimeRange) : String :=
  "\x7b\"start\":" ++ toString t.start ++ ",\"end\":" ++ toString t.«end» ++ "\x7d"

/-- JSON array of strings. -/
def marshalStringList (l : List String) : String :=
  "[" ++ String.intercalate "," (l.map jsonString) ++ "]"

/-- JSON object for `models.FilterOptions`: tag names in struct order, every
field `omitempty` (nil pointers and empty slices omitted). -/
def marshalFilterOptions (f : FilterOptions) : String :=
  "\x7b" ++ String.intercalate ","
    ((match f.minPrice with
      | some q => ["\"minPrice\":" ++ jsonNumber q]
      | none => [])
     ++ (match f.maxPrice with
      | some q => ["\"maxPrice\":" ++ jsonNumber q]
      | none => [])
     ++ (match f.maxStops with
      | some n => ["\"maxStops\":" ++ toString n]
      | none => [])
     ++ (if f.airlines.isEmpty then [] else ["\"airlines\":" ++ marshalStringList f.airlines])
     ++ (match f.departureTime with
      | some t => ["\"departureTime\":" ++ marshalTimeRange t]
      | none => [])
     ++ (match f.arrivalTime with
      | some t => ["\"arrivalTime\":" ++ marshalTimeRange t]
      | none => [])
     ++ (match f.maxDuration with
      | some n => ["\"maxDuration\":" ++ toString n]
      | none => [])) ++ "\x7d"

/-- JSON object for `models.SearchRequest`: tag names in struct order;
`origin`, `destination`, `departureDate`, `passengers`, `cabinClass` always
present, the rest `omitempty`. -/
def marshalSearchRequest (r : SearchRequest) : String :=
  "\x7b" ++ String.intercalate ","
    (["\"origin\":" ++ jsonString r.origin,
      "\"destination\":" ++ jsonString r.destination,
      "\"departureDate\":" ++ jsonString r.departureDate]
     ++ (match r.returnDate with
      | some d => ["\"returnDate\":" ++ jsonString d]
      | none => [])
     ++ ["\"passengers\":" ++ toString r.passengers,
         "\"cabinClass\":" ++ jsonString r.cabinClass]
     ++ (match r.filters with
      | some f => ["\"filters\":" ++ marshalFilterOptions f]
      | none => [])
     ++ (if r.sortBy = "" then [] else ["\"sortBy\":" ++ jsonString r.sortBy])
     ++ (if r.sortOrder = "" then [] else ["\"sortOrder\":" ++ jsonString r.sortOrder])
     ++ (match r.returnFilters with
      | some f => ["\"returnFilters\":" ++ marshalFilterOptions f]
      | none => [])
     ++ (if r.returnSortBy = "" then []
         else ["\"returnSortBy\":" ++ jsonString r.returnSortBy])
     ++ (if r.returnSortOrder = "" then []
         else ["\"returnSortOrder\":" ++ jsonString r.returnSortOrder])) ++ "\x7d"

/-- `cache.GenerateKey(prefix, obj)` for a payload that marshals without
error (a `SearchRequest` always does, so the `%v` fallback branch is dead):
`fmt.Sprintf("%s:%x", prefix, sha256.Sum256(data)[:8])`. -/
def generateKey (pre : String) (payload : String) : String :=
  pre ++ ":" ++ bytesToHex ((sha256Bytes (strToBytes payload)).take 8)

/-- `Cache.GenerateKey(req)`: the request key with the `"search"` prefix. -/
def cacheGenerateKey (req : SearchRequest) : String :=
  generateKey "search" (marshalSearchRequest req)

theorem sha256Bytes_length (msg : List Nat) : (sha256Bytes msg).length = 32 := by
  simp [sha256Bytes, word2bytes]

theorem bytesToHex_data_length (bs : List Nat) : (bytesToHex bs).length = 2 * bs.length := by
  show (bs.flatMap (fun b => [hexDigitChar (b / 16 % 16), hexDigitChar (b % 16)])).length
      = 2 * bs.length
  induction bs with
  | nil => rfl
  | cons b rest ih =>
    simp only [List.flatMap_cons, List.length_append, List.length_cons, List.length_nil, ih,
      List.length_cons]
    omega

theorem hexDigitChar_mem (n : Nat) (h : n < 16) :
    hexDigitChar n ∈ ("0123456789abcdef").data := by
  interval_cases n <;> decide

theorem bytesToHex_chars (bs : List Nat) :
    ∀ c ∈ (bytesToHex bs).data, c ∈ ("0123456789abcdef").data := by
  intro c hc
  have hc2 : c ∈ bs.flatMap (fun b => [hexDigitChar (b / 16 % 16), hexDigitChar (b % 16)]) := hc
  rw [List.mem_flatMap] at hc2
  obtain ⟨b, _, hcb⟩ := hc2
  rcases List.mem_cons.mp hcb with h | h
  · subst h
    exact hexDigitChar_mem _ (Nat.mod_lt _ (by norm_num))
  · rcases List.mem_cons.mp h with h2 | h2
    · subst h2
      exact hexDigitChar_mem _ (Nat.mod_lt _ (by norm_num))
    · cases h2

/-- **C9.** The cache key of a request is `"search:"` followed by the
lowercase hexadecimal rendering (16 digits) of the first 8 bytes of the
SHA-256 hash of the request's JSON serialization, and key generation is a
pure deterministic function: structurally equal requests yield the same
key. -/
theorem cacheGenerateKey_shape (req : SearchRequest) :
    cacheGenerateKey req
      = "search:" ++ bytesToHex ((sha256Bytes (strToBytes (marshalSearchRequest req))).take 8)
    ∧ (bytesToHex ((sha256Bytes (strToBytes (marshalSearchRequest req))).take 8)).length = 16
    ∧ (∀ c ∈ (bytesToHex
          ((sha256Bytes (strToBytes (marshalSearchRequest req))).take 8)).data,
        c ∈ ("0123456789abcdef").data)
    ∧ (∀ req2 : SearchRequest, req = req2 → cacheGenerateKey req = cacheGenerateKey req2) := by
  refine ⟨?_, ?_, bytesToHex_chars _, ?_⟩
  · apply String.ext
    simp [cacheGenerateKey, generateKey, String.data_append]
  · rw [bytesToHex_data_length, List.length_take, sha256Bytes_length]
    rfl
  · intro req2 h
    rw [h]

theorem cacheGenerateKey_shape_witness :
    (bytesToHex ((sha256Bytes (strToBytes (marshalSearchRequest reqGaruda))).take 8)).length = 16
    ∧ cacheGenerateKey reqGaruda = cacheGenerateKey reqGaruda :=
  ⟨(cacheGenerateKey_shape reqGaruda).2.1,
   (cacheGenerateKey_shape reqGaruda).2.2.2 reqGaruda rfl⟩

/-! ## Search orchestration: the cache paths of `SearchService.Search`

The validation step and the miss-path pipeline (aggregate → filter → score →
sort → metadata assembly) are abstracted as parameters; the cache
interaction is embedded verbatim for requests without a return leg (with a
return date the code runs an additional lookup under the return leg's own
key; the hit path under scrutiny returns before that step either way).
`Search` performs no copy on a hit: `cached.(*models.SearchResponse)` is a
pointer into the cache entry, and `response.Metadata.CacheHit = true`
mutates the pointed-to response in place, which `setEntryData` renders on
the value level. -/

/-- In-place mutation of the response object a cache entry points to
(`ExpiresAt` untouched). -/
def setEntryData {α : Type} (c : GoCache α) (k : String) (v : α) : GoCache α :=
  { c with data := c.data.map (fun p => if p.1 = k then (p.1, ⟨v, p.2.expiresAt⟩) else p) }

/-- The abstracted collaborators of `SearchService.Search`: the validator
and the miss-path compute (`none` = the aggregator failed with an empty
partial list, which `Search` surfaces as an error). -/
structure SearchServiceModel where
  validateErr : SearchRequest → Option String
  compute : SearchRequest → Option SearchResponse

/-- Steps 1, 2 and the tail of `SearchService.Search` for a request without
a return leg: validate; on a cache hit mark the (shared) stored response as
a cache hit and return it; on a miss compute, assemble with
`CacheHit: false`, store, return. -/
def serviceSearch (m : SearchServiceModel) (c : GoCache SearchResponse) (now : Int)
    (req : SearchRequest) : Option SearchResponse × GoCache SearchResponse :=
  match m.validateErr req with
  | some _ => (none, c)
  | none =>
    match (cacheGet c now (cacheGenerateKey req)).1 with
    | some cached =>
      (some { cached with metadata := { cached.metadata with cacheHit := true } },
       setEntryData (cacheGet c now (cacheGenerateKey req)).2 (cacheGenerateKey req)
         { cached with metadata := { cached.metadata with cacheHit := true } })
    | none =>
      match m.compute req with
      | none => (none, (cacheGet c now (cacheGenerateKey req)).2)
      | some resp0 =>
        (some { resp0 with metadata := { resp0.metadata with cacheHit := false } },
         cacheSet (cacheGet c now (cacheGenerateKey req)).2 now (cacheGenerateKey req)
           { resp0 with metadata := { resp0.metadata with cacheHit := false } })

theorem cacheGet_fst_of_lookup_none {α : Type} (c : GoCache α) (now : Int) (k : String)
    (hm : mapLookup k c.data = none) : (cacheGet c now k).1 = none := by
  simp [cacheGet, hm]

theorem cacheGet_fst_of_hit {α : Type} (c : GoCache α) (now : Int) (k : String)
    (e : CacheEntry α) (hm : mapLookup k c.data = some e) (hexp : ¬ now > e.expiresAt) :
    (cacheGet c now k).1 = some e.data := by
  have : e.isExpired now = false := by
    unfold CacheEntry.isExpired
    simp [hexp]
  simp [cacheGet, hm, this]

theorem cacheGet_snd_frame {α : Type} (c : GoCache α) (now : Int) (k : String) :
    (cacheGet c now k).2.data = c.data ∧ (cacheGet c now k).2.ttl = c.ttl := by
  unfold cacheGet
  match mapLookup k c.data with
  | none => exact ⟨rfl, rfl⟩
  | some e => by_cases hexp : e.isExpired now <;> simp [hexp]

theorem mapLookup_update_self {α : Type} (k : String) (v : α) :
    ∀ (l : List (String × CacheEntry α)) (e : CacheEntry α), mapLookup k l = some e →
      mapLookup k (l.map (fun p => if p.1 = k then (p.1, ⟨v, p.2.expiresAt⟩) else p))
        = some ⟨v, e.expiresAt⟩ := by
  intro l
  induction l with
  | nil => intro e h; cases h
  | cons hd tl ih =>
    intro e h
    simp only [List.map_cons]
    by_cases hk : hd.1 = k
    · have h2 : hd.2 = e := by
        unfold mapLookup at h
        rw [if_pos hk] at h
        exact Option.some.inj h
      rw [if_pos hk]
      unfold mapLookup
      rw [if_pos hk, h2]
    · rw [if_neg hk]
      unfold mapLookup
      rw [if_neg hk]
      apply ih
      unfold mapLookup at h
      rw [if_neg hk] at h
      exact h

/-- **C1 (amended).** On a cache hit `Search` returns the *shared* stored
response object after setting its `metadata.cache_hit` in place — no copy is
made and the stored cache entry changes with it.  Consequently a second
`Search(R)` under no external state change (same key still absent before the
first call, second call within TTL) returns a response identical to the
first except that `cache_hit` is `true`, and that mutated object is exactly
what the cache entry now holds. -/
theorem serviceSearch_cacheHit_mutates_shared (m : SearchServiceModel)
    (c c1 : GoCache SearchResponse) (t0 t1 : Int) (req : SearchRequest)
    (resp0 r1 : SearchResponse)
    (_hret : req.returnDate = none)
    (hval : m.validateErr req = none)
    (hcomp : m.compute req = some resp0)
    (hmiss : mapLookup (cacheGenerateKey req) c.data = none)
    (httl : ¬ t1 > t0 + c.ttl)
    (hfirst : serviceSearch m c t0 req = (some r1, c1)) :
    r1 = { resp0 with metadata := { resp0.metadata with cacheHit := false } }
    ∧ (serviceSearch m c1 t1 req).1
        = some { r1 with metadata := { r1.metadata with cacheHit := true } }
    ∧ mapLookup (cacheGenerateKey req) (serviceSearch m c1 t1 req).2.data
        = some ⟨{ r1 with metadata := { r1.metadata with cacheHit := true } }, t0 + c.ttl⟩ := by
  have hg1 : (cacheGet c t0 (cacheGenerateKey req)).1 = none :=
    cacheGet_fst_of_lookup_none c t0 (cacheGenerateKey req) hmiss
  have hframe0 := cacheGet_snd_frame c t0 (cacheGenerateKey req)
  have hsimp : serviceSearch m c t0 req
      = (some { resp0 with metadata := { resp0.metadata with cacheHit := false } },
         cacheSet (cacheGet c t0 (cacheGenerateKey req)).2 t0 (cacheGenerateKey req)
           { resp0 with metadata := { resp0.metadata with cacheHit := false } }) := by
    simp [serviceSearch, hval, hg1, hcomp]
  rw [hsimp] at hfirst
  have hr1 : r1 = { resp0 with metadata := { resp0.metadata with cacheHit := false } } :=
    (Option.some.inj (Prod.mk.injEq _ _ _ _ ▸ hfirst).1).symm
  have hc1 : c1 = cacheSet (cacheGet c t0 (cacheGenerateKey req)).2 t0 (cacheGenerateKey req)
      { resp0 with metadata := { resp0.metadata with cacheHit := false } } :=
    ((Prod.mk.injEq _ _ _ _ ▸ hfirst).2).symm
  have hlook1 : mapLookup (cacheGenerateKey req) c1.data
      = some ⟨{ resp0 with metadata := { resp0.metadata with cacheHit := false } },
              t0 + c.ttl⟩ := by
    rw [hc1]
    show mapLookup (cacheGenerateKey req)
        (mapInsert (cacheGenerateKey req)
          ⟨{ resp0 with metadata := { resp0.metadata with cacheHit := false } },
           t0 + (cacheGet c t0 (cacheGenerateKey req)).2.ttl⟩
          (cacheGet c t0 (cacheGenerateKey req)).2.data) = _
    rw [hframe0.2, mapLookup_insert_self]
  have hhit : (cacheGet c1 t1 (cacheGenerateKey req)).1
      = some { resp0 with metadata := { resp0.metadata with cacheHit := false } } :=
    cacheGet_fst_of_hit c1 t1 (cacheGenerateKey req) _ hlook1 httl
  have hframe1 := cacheGet_snd_frame c1 t1 (cacheGenerateKey req)
  refine ⟨hr1, ?_, ?_⟩
  · simp [serviceSearch, hval, hhit, hr1]
  · have hsimp2 : (serviceSearch m c1 t1 req).2
        = setEntryData (cacheGet c1 t1 (cacheGenerateKey req)).2 (cacheGenerateKey req)
          { resp0 with metadata := { resp0.metadata with cacheHit := true } } := by
      simp [serviceSearch, hval, hhit]
    rw [hsimp2, hr1]
    show mapLookup (cacheGenerateKey req)
        (((cacheGet c1 t1 (cacheGenerateKey req)).2.data).map _) = _
    rw [hframe1.1]
    exact mapLookup_update_self (cacheGenerateKey req) _ c1.data _ hlook1

/-- A request without filters or return leg. -/
def reqPlain : SearchRequest :=
  { origin := "CGK", destination := "DPS", departureDate := "2025-12-15"
    returnDate := none, passengers := 1, cabinClass := "economy"
    filters := none, sortBy := "", sortOrder := "", returnFilters := none
    returnSortBy := "", returnSortOrder := "" }

/-- A concrete response the miss path produces for `reqPlain`. -/
def plainResponse : SearchResponse :=
  { searchCriteria := ⟨"CGK", "DPS", "2025-12-15", none, 1, "economy"⟩
    metadata := ⟨1, 1, 1, 0, 5, false, [("Garuda Indonesia", 1)], []⟩
    flights := [sampleFlight]
    bestValueFlight := some sampleFlight
    returnFlights := []
    bestValueReturnFlight := none
    returnMetadata := none }

/-- A service whose validator accepts and whose miss path computes
`plainResponse`. -/
def plainModel : SearchServiceModel := ⟨fun _ => none, fun _ => some plainResponse⟩

/-- The cache state after a first `Search(reqPlain)` on an empty cache at
time 0 with TTL 300. -/
def stateAfterMiss : GoCache SearchResponse :=
  (serviceSearch plainModel (cacheNew SearchResponse 300) 0 reqPlain).2

set_option maxRecDepth 100000 in
theorem serviceSearch_cacheHit_copy_counterexample :
    (cacheGet stateAfterMiss 10 (cacheGenerateKey reqPlain)).1 ≠ none
    ∧ (serviceSearch plainModel stateAfterMiss 10 reqPlain).2.data ≠ stateAfterMiss.data := by
  constructor
  · decide
  · decide

theorem serviceSearch_cacheHit_mutates_shared_witness :
    (reqPlain.returnDate = none
      ∧ plainModel.validateErr reqPlain = none
      ∧ plainModel.compute reqPlain = some plainResponse
      ∧ mapLookup (cacheGenerateKey reqPlain) (cacheNew SearchResponse 300).data = none
      ∧ ¬ (10 : Int) > 0 + (cacheNew SearchResponse 300).ttl)
    ∧ (serviceSearch plainModel stateAfterMiss 10 reqPlain).1
        = some { plainResponse with
                 metadata := { plainResponse.metadata with cacheHit := true } } := by
  have h := serviceSearch_cacheHit_mutates_shared plainModel (cacheNew SearchResponse 300)
    stateAfterMiss 0 10 reqPlain plainResponse
    { plainResponse with metadata := { plainResponse.metadata with cacheHit := false } }
    rfl rfl rfl rfl (by norm_num [cacheNew]) rfl
  exact ⟨⟨rfl, rfl, rfl, rfl, by norm_num [cacheNew]⟩, h.2.1⟩

/-! ## Scorer (internal/ranking)

Sub-scores and weights are Go `float64` values, modelled as exact
rationals.  `scoredArray` is the `scored` array of `Scorer.ScoreFlights`
just before the final `sort.Slice` by descending score (the sort permutes
the array but does not change any score; the sorting itself is the
subject of the sorter embedding further below). -/

/-- `ranking.Weights`. -/
structure ScoringWeights where
  price : ℚ
  duration : ℚ
  stops : ℚ
  departureTime : ℚ
  deriving Repr, DecidableEq

/-- `ranking.ScoreBreakdown`. -/
structure ScoreBreakdown where
  priceScore : ℚ
  durationScore : ℚ
  stopsScore : ℚ
  departureTimeScore : ℚ
  deriving Repr, DecidableEq

/-- `ranking.FlightScore`. -/
structure FlightScore where
  flight : Flight
  score : ℚ
  breakdown : ScoreBreakdown
  deriving Repr, DecidableEq

/-- The running-min/max fold of `findPriceRange` / `findDurationRange`. -/
def goMinMaxFold {α : Type} [LinearOrder α] (l : List α) (ab : α × α) : α × α :=
  l.foldl (fun mm x => (if x < mm.1 then x else mm.1, if x > mm.2 then x else mm.2)) ab

/-- `Scorer.findPriceRange`: `(0,0)` for an empty list, else the running
min/max over all prices starting from the first flight's price. -/
def findPriceRange (flights : List Flight) : ℚ × ℚ :=
  match flights with
  | [] => (0, 0)
  | f :: _ =>
      goMinMaxFold (flights.map (fun g => g.price.amount)) (f.price.amount, f.price.amount)

/-- `Scorer.findDurationRange`. -/
def findDurationRange (flights : List Flight) : Int × Int :=
  match flights with
  | [] => (0, 0)
  | f :: _ =>
      goMinMaxFold (flights.map (fun g => g.duration.totalMinutes))
        (f.duration.totalMinutes, f.duration.totalMinutes)

/-- `Scorer.scorePriceNormalized`: 1 on a degenerate range, else the
inverted normalization clamped to [0,1]. -/
def scorePriceNormalized (price minPrice maxPrice : ℚ) : ℚ :=
  if maxPrice = minPrice then 1
  else max 0 (min 1 (1 - (price - minPrice) / (maxPrice - minPrice)))

/-- `Scorer.scoreDurationNormalized`. -/
def scoreDurationNormalized (duration minDuration maxDuration : Int) : ℚ :=
  if maxDuration = minDuration then 1
  else max 0 (min 1 (1 - ((duration - minDuration : Int) : ℚ) / ((maxDuration - minDuration : Int) : ℚ)))

/-- `Scorer.scoreStops`: 0 → 1.0, 1 → 0.7, 2 → 0.4, otherwise 0.2. -/
def scoreStops (stops : Int) : ℚ :=
  if stops = 0 then 1 else if stops = 1 then 7/10 else if stops = 2 then 2/5 else 1/5

/-- `Scorer.scoreDepartureTime` on the local departure hour. -/
def scoreDepartureTime (hour : Int) : ℚ :=
  if 8 ≤ hour ∧ hour ≤ 20 then 1
  else if 6 ≤ hour ∧ hour < 8 then 4/5
  else if 20 < hour ∧ hour ≤ 22 then 4/5
  else if 5 ≤ hour ∧ hour < 6 then 3/5
  else if 22 < hour ∧ hour ≤ 23 then 3/5
  else 3/10

/-- One entry of the `scored` array: the weighted total is
`(P·w_p + D·w_d + S·w_s + T·w_t) * 100`. -/
def scoreOne (w : ScoringWeights) (minPrice maxPrice : ℚ) (minDuration maxDuration : Int)
    (f : Flight) : FlightScore :=
  ⟨f,
   (scorePriceNormalized f.price.amount minPrice maxPrice * w.price
     + scoreDurationNormalized f.duration.totalMinutes minDuration maxDuration * w.duration
     + scoreStops f.stops * w.stops
     + scoreDepartureTime f.departure.datetime.hour * w.departureTime) * 100,
   ⟨scorePriceNormalized f.price.amount minPrice maxPrice,
    scoreDurationNormalized f.duration.totalMinutes minDuration maxDuration,
    scoreStops f.stops,
    scoreDepartureTime f.departure.datetime.hour⟩⟩

/-- The `scored` array of `Scorer.ScoreFlights` before the final sort. -/
def scoredArray (w : ScoringWeights) (flights : List Flight) : List FlightScore :=
  if flights.isEmpty then []
  else
    flights.map (scoreOne w (findPriceRange flights).1 (findPriceRange flights).2
      (findDurationRange flights).1 (findDurationRange flights).2)

theorem goMinMaxFold_bounds {α : Type} [LinearOrder α] (l : List α) :
    ∀ ab : α × α,
      ((goMinMaxFold l ab).1 ≤ ab.1 ∧ ab.2 ≤ (goMinMaxFold l ab).2)
      ∧ ∀ x ∈ l, (goMinMaxFold l ab).1 ≤ x ∧ x ≤ (goMinMaxFold l ab).2 := by
  induction l with
  | nil => intro ab; exact ⟨⟨le_refl _, le_refl _⟩, by simp⟩
  | cons y rest ih =>
    intro ab
    have hgo : goMinMaxFold (y :: rest) ab
        = goMinMaxFold rest (if y < ab.1 then y else ab.1, if y > ab.2 then y else ab.2) := rfl
    obtain ⟨⟨hA, hB⟩, hmem⟩ :=
      ih (if y < ab.1 then y else ab.1, if y > ab.2 then y else ab.2)
    have ha1 : (if y < ab.1 then y else ab.1) ≤ ab.1 := by
      by_cases h : y < ab.1
      · rw [if_pos h]; exact le_of_lt h
      · rw [if_neg h]
    have ha2 : (if y < ab.1 then y else ab.1) ≤ y := by
      by_cases h : y < ab.1
      · rw [if_pos h]
      · rw [if_neg h]; exact le_of_not_lt h
    have hb1 : ab.2 ≤ (if y > ab.2 then y else ab.2) := by
      by_cases h : y > ab.2
      · rw [if_pos h]; exact le_of_lt h
      · rw [if_neg h]
    have hb2 : y ≤ (if y > ab.2 then y else ab.2) := by
      by_cases h : y > ab.2
      · rw [if_pos h]
      · rw [if_neg h]; exact le_of_not_lt h
    rw [hgo]
    refine ⟨⟨le_trans hA ha1, le_trans hb1 hB⟩, ?_⟩
    intro x hx
    rcases List.mem_cons.mp hx with h | h
    · subst h
      exact ⟨le_trans hA ha2, le_trans hb2 hB⟩
    · exact hmem x h

/-- Every price of the list lies between the computed min and max. -/
theorem findPriceRange_bounds (flights : List Flight) (f : Flight) (hf : f ∈ flights) :
    (findPriceRange flights).1 ≤ f.price.amount
    ∧ f.price.amount ≤ (findPriceRange flights).2 := by
  match flights, hf with
  | g :: rest, hf =>
    have h := (goMinMaxFold_bounds ((g :: rest).map (fun x => x.price.amount))
      (g.price.amount, g.price.amount)).2
    exact h f.price.amount (List.mem_map_of_mem _ hf)

/-- Every duration of the list lies between the computed min and max. -/
theorem findDurationRange_bounds (flights : List Flight) (f : Flight) (hf : f ∈ flights) :
    (findDurationRange flights).1 ≤ f.duration.totalMinutes
    ∧ f.duration.totalMinutes ≤ (findDurationRange flights).2 := by
  match flights, hf with
  | g :: rest, hf =>
    have h := (goMinMaxFold_bounds ((g :: rest).map (fun x => x.duration.totalMinutes))
      (g.duration.totalMinutes, g.duration.totalMinutes)).2
    exact h f.duration.totalMinutes (List.mem_map_of_mem _ hf)

/-- A strictly cheaper price within the range scores strictly higher. -/
theorem scorePriceNormalized_strict (minPrice maxPrice p1 p2 : ℚ)
    (h1 : minPrice ≤ p1) (h2 : p2 ≤ maxPrice) (hlt : p1 < p2) :
    scorePriceNormalized p2 minPrice maxPrice < scorePriceNormalized p1 minPrice maxPrice := by
  have hD : 0 < maxPrice - minPrice := by linarith
  have hne : maxPrice ≠ minPrice := by intro h; rw [h] at hD; linarith
  have hx1lo : 0 ≤ (p1 - minPrice) / (maxPrice - minPrice) :=
    div_nonneg (by linarith) (le_of_lt hD)
  have hx2hi : (p2 - minPrice) / (maxPrice - minPrice) ≤ 1 :=
    (div_le_one hD).mpr (by linarith)
  have hxlt : (p1 - minPrice) / (maxPrice - minPrice)
      < (p2 - minPrice) / (maxPrice - minPrice) :=
    (div_lt_div_iff_of_pos_right hD).mpr (by linarith)
  have hx2lo : 0 ≤ (p2 - minPrice) / (maxPrice - minPrice) := le_trans hx1lo (le_of_lt hxlt)
  have hx1hi : (p1 - minPrice) / (maxPrice - minPrice) ≤ 1 := le_trans (le_of_lt hxlt) hx2hi
  unfold scorePriceNormalized
  rw [if_neg hne, if_neg hne]
  rw [min_eq_right (by linarith), min_eq_right (by linarith)]
  rw [max_eq_right (by linarith), max_eq_right (by linarith)]
  linarith

/-- A strictly shorter duration within the range scores strictly higher. -/
theorem scoreDurationNormalized_strict (minDur maxDur d1 d2 : Int)
    (h1 : minDur ≤ d1) (h2 : d2 ≤ maxDur) (hlt : d1 < d2) :
    scoreDurationNormalized d2 minDur maxDur < scoreDurationNormalized d1 minDur maxDur := by
  have hDi : (0 : Int) < maxDur - minDur := by omega
  have hD : (0 : ℚ) < ((maxDur - minDur : Int) : ℚ) := by exact_mod_cast hDi
  have hne : maxDur ≠ minDur := by omega
  have hc1 : ((minDur : ℚ)) ≤ ((d1 : Int) : ℚ) := by exact_mod_cast h1
  have hc2 : ((d2 : Int) : ℚ) ≤ (maxDur : ℚ) := by exact_mod_cast h2
  have hclt : ((d1 : Int) : ℚ) < ((d2 : Int) : ℚ) := by exact_mod_cast hlt
  have hx1lo : 0 ≤ ((d1 - minDur : Int) : ℚ) / ((maxDur - minDur : Int) : ℚ) := by
    apply div_nonneg _ (le_of_lt hD)
    rw [Int.cast_sub]
    linarith
  have hx2hi : ((d2 - minDur : Int) : ℚ) / ((maxDur - minDur : Int) : ℚ) ≤ 1 := by
    rw [div_le_one hD, Int.cast_sub, Int.cast_sub]
    linarith
  have hxlt : ((d1 - minDur : Int) : ℚ) / ((maxDur - minDur : Int) : ℚ)
      < ((d2 - minDur : Int) : ℚ) / ((maxDur - minDur : Int) : ℚ) := by
    apply (div_lt_div_iff_of_pos_right hD).mpr
    rw [Int.cast_sub, Int.cast_sub]
    linarith
  have hx2lo : 0 ≤ ((d2 - minDur : Int) : ℚ) / ((maxDur - minDur : Int) : ℚ) :=
    le_trans hx1lo (le_of_lt hxlt)
  have hx1hi : ((d1 - minDur : Int) : ℚ) / ((maxDur - minDur : Int) : ℚ) ≤ 1 :=
    le_trans (le_of_lt hxlt) hx2hi
  unfold scoreDurationNormalized
  rw [if_neg hne, if_neg hne]
  rw [min_eq_right (by linarith), min_eq_right (by linarith)]
  rw [max_eq_right (by linarith), max_eq_right (by linarith)]
  linarith

/-- The stops score never increases with more stops (for non-negative stop
counts), but is not strictly decreasing: it plateaus at 0.2 from 3 stops
on. -/
theorem scoreStops_antitone (s1 s2 : Int) (h0 : 0 ≤ s1) (h : s1 < s2) :
    scoreStops s2 ≤ scoreStops s1 := by
  unfold scoreStops
  by_cases e10 : s1 = 0
  · rw [if_pos e10]
    split_ifs <;> norm_num
  · by_cases e11 : s1 = 1
    · rw [if_neg e10, if_pos e11]
      have h20 : ¬ s2 = 0 := by omega
      have h21 : ¬ s2 = 1 := by omega
      rw [if_neg h20, if_neg h21]
      split_ifs <;> norm_num
    · by_cases e12 : s1 = 2
      · rw [if_neg e10, if_neg e11, if_pos e12]
        have h20 : ¬ s2 = 0 := by omega
        have h21 : ¬ s2 = 1 := by omega
        have h22 : ¬ s2 = 2 := by omega
        rw [if_neg h20, if_neg h21, if_neg h22]
        norm_num
      · rw [if_neg e10, if_neg e11, if_neg e12]
        have h20 : ¬ s2 = 0 := by omega
        have h21 : ¬ s2 = 1 := by omega
        have h22 : ¬ s2 = 2 := by omega
        rw [if_neg h20, if_neg h21, if_neg h22]

/-- **C4 (amended).** With non-negative weights, a flight that strictly
dominates another on all four features (strictly lower price, strictly
shorter duration, strictly fewer — non-negative — stops, strictly preferred
departure hour) scores at least as high, and strictly higher provided one of
the price, duration or departure-time weights is positive.  (With only the
stops weight positive the totals can tie, because the stops sub-score
plateaus at 0.2 for three or more stops.) -/
theorem scoredArray_strict_domination (w : ScoringWeights) (flights : List Flight)
    (f1 f2 : Flight) (hf1 : f1 ∈ flights) (hf2 : f2 ∈ flights)
    (hw1 : 0 ≤ w.price) (hw2 : 0 ≤ w.duration) (hw3 : 0 ≤ w.stops)
    (hw4 : 0 ≤ w.departureTime)
    (hpos : 0 < w.price ∨ 0 < w.duration ∨ 0 < w.departureTime)
    (hstops0 : 0 ≤ f1.stops)
    (hp : f1.price.amount < f2.price.amount)
    (hd : f1.duration.totalMinutes < f2.duration.totalMinutes)
    (hs : f1.stops < f2.stops)
    (ht : scoreDepartureTime f2.departure.datetime.hour
        < scoreDepartureTime f1.departure.datetime.hour) :
    (scoreOne w (findPriceRange flights).1 (findPriceRange flights).2
        (findDurationRange flights).1 (findDurationRange flights).2 f2).score
      < (scoreOne w (findPriceRange flights).1 (findPriceRange flights).2
        (findDurationRange flights).1 (findDurationRange flights).2 f1).score
    ∧ scoreOne w (findPriceRange flights).1 (findPriceRange flights).2
        (findDurationRange flights).1 (findDurationRange flights).2 f1
        ∈ scoredArray w flights
    ∧ scoreOne w (findPriceRange flights).1 (findPriceRange flights).2
        (findDurationRange flights).1 (findDurationRange flights).2 f2
        ∈ scoredArray w flights := by
  have hne : ¬ flights.isEmpty := by
    cases flights with
    | nil => cases hf1
    | cons a l => simp
  have hPb1 := findPriceRange_bounds flights f1 hf1
  have hPb2 := findPriceRange_bounds flights f2 hf2
  have hDb1 := findDurationRange_bounds flights f1 hf1
  have hDb2 := findDurationRange_bounds flights f2 hf2
  have hP := scorePriceNormalized_strict (findPriceRange flights).1
    (findPriceRange flights).2 f1.price.amount f2.price.amount hPb1.1 hPb2.2 hp
  have hD := scoreDurationNormalized_strict (findDurationRange flights).1
    (findDurationRange flights).2 f1.duration.totalMinutes f2.duration.totalMinutes
    hDb1.1 hDb2.2 hd
  have hS := scoreStops_antitone f1.stops f2.stops hstops0 hs
  refine ⟨?_, ?_, ?_⟩
  · show (scorePriceNormalized f2.price.amount _ _ * w.price + _ + _ + _) * 100
        < (scorePriceNormalized f1.price.amount _ _ * w.price + _ + _ + _) * 100
    have e2le := mul_le_mul_of_nonneg_right (le_of_lt hD) hw2
    have e3le := mul_le_mul_of_nonneg_right hS hw3
    have e4le := mul_le_mul_of_nonneg_right (le_of_lt ht) hw4
    have e1le := mul_le_mul_of_nonneg_right (le_of_lt hP) hw1
    rcases hpos with hw | hw | hw
    · have e1 := mul_lt_mul_of_pos_right hP hw
      linarith
    · have e2 := mul_lt_mul_of_pos_right hD hw
      linarith
    · have e4 := mul_lt_mul_of_pos_right ht hw
      linarith
  · unfold scoredArray
    rw [if_neg hne]
    exact List.mem_map_of_mem _ hf1
  · unfold scoredArray
    rw [if_neg hne]
    exact List.mem_map_of_mem _ hf2

/-- Weights giving all mass to the stops feature (a legal configuration:
the spec applies no normalization). -/
def wStopsOnly : ScoringWeights := ⟨0, 0, 1, 0⟩

/-- First flight of the domination counterexample: cheaper, shorter, fewer
stops (3), preferred 10:00 departure. -/
def f1c4 : Flight :=
  { sampleFlight with
    id := "JT1_Lion Air", flightNumber := "JT1"
    price := ⟨100, "IDR"⟩, duration := ⟨60, "1h 0m"⟩, stops := 3
    departure := ⟨"CGK", "Jakarta", ⟨36000, 0⟩, 36000⟩ }

/-- Second flight: dominated on all four features (4 stops, 03:00
departure). -/
def f2c4 : Flight :=
  { sampleFlight with
    id := "JT2_Lion Air", flightNumber := "JT2"
    price := ⟨200, "IDR"⟩, duration := ⟨120, "2h 0m"⟩, stops := 4
    departure := ⟨"CGK", "Jakarta", ⟨10800, 0⟩, 10800⟩ }

theorem scoredArray_domination_counterexample :
    (f1c4.price.amount < f2c4.price.amount
     ∧ f1c4.duration.totalMinutes < f2c4.duration.totalMinutes
     ∧ f1c4.stops < f2c4.stops
     ∧ scoreDepartureTime f2c4.departure.datetime.hour
         < scoreDepartureTime f1c4.departure.datetime.hour)
    ∧ (scoredArray wStopsOnly [f1c4, f2c4]).map (fun s => s.score) = [20, 20] := by
  have hpr : findPriceRange [f1c4, f2c4] = (100, 200) := by
    show goMinMaxFold [f1c4.price.amount, f2c4.price.amount]
      (f1c4.price.amount, f1c4.price.amount) = (100, 200)
    norm_num [goMinMaxFold, f1c4, f2c4, sampleFlight]
  have hdr : findDurationRange [f1c4, f2c4] = (60, 120) := by
    show goMinMaxFold [f1c4.duration.totalMinutes, f2c4.duration.totalMinutes]
      (f1c4.duration.totalMinutes, f1c4.duration.totalMinutes) = (60, 120)
    norm_num [goMinMaxFold, f1c4, f2c4, sampleFlight]
  refine ⟨⟨by norm_num [f1c4, f2c4, sampleFlight], by norm_num [f1c4, f2c4, sampleFlight],
    by norm_num [f1c4, f2c4, sampleFlight], ?_⟩, ?_⟩
  · show scoreDepartureTime f2c4.departure.datetime.hour
        < scoreDepartureTime f1c4.departure.datetime.hour
    have h2 : f2c4.departure.datetime.hour = 3 := by decide
    have h1 : f1c4.departure.datetime.hour = 10 := by decide
    rw [h1, h2]
    norm_num [scoreDepartureTime]
  · unfold scoredArray
    rw [if_neg (by simp)]
    simp only [List.map_cons, List.map_nil, hpr, hdr]
    simp only [scoreOne, wStopsOnly]
    have h2 : f2c4.departure.datetime.hour = 3 := by decide
    have h1 : f1c4.departure.datetime.hour = 10 := by decide
    rw [h1, h2]
    have hs1 : f1c4.stops = 3 := by decide
    have hs2 : f2c4.stops = 4 := by decide
    rw [hs1, hs2]
    norm_num [scoreStops]

/-- A balanced, all-positive weight configuration. -/
def wBalanced : ScoringWeights := ⟨2/5, 3/10, 1/5, 1/10⟩

theorem scoredArray_strict_domination_witness :
    ((0 : ℚ) < wBalanced.price
      ∧ f1c4.price.amount < f2c4.price.amount
      ∧ f1c4.duration.totalMinutes < f2c4.duration.totalMinutes
      ∧ f1c4.stops < f2c4.stops)
    ∧ (scoreOne wBalanced (findPriceRange [f1c4, f2c4]).1 (findPriceRange [f1c4, f2c4]).2
        (findDurationRange [f1c4, f2c4]).1 (findDurationRange [f1c4, f2c4]).2 f2c4).score
      < (scoreOne wBalanced (findPriceRange [f1c4, f2c4]).1 (findPriceRange [f1c4, f2c4]).2
        (findDurationRange [f1c4, f2c4]).1 (findDurationRange [f1c4, f2c4]).2 f1c4).score := by
  have ht : scoreDepartureTime f2c4.departure.datetime.hour
      < scoreDepartureTime f1c4.departure.datetime.hour := by
    have h2 : f2c4.departure.datetime.hour = 3 := by decide
    have h1 : f1c4.departure.datetime.hour = 10 := by decide
    rw [h1, h2]
    norm_num [scoreDepartureTime]
  have h := scoredArray_strict_domination wBalanced [f1c4, f2c4] f1c4 f2c4
    (by simp) (by simp)
    (by norm_num [wBalanced]) (by norm_num [wBalanced]) (by norm_num [wBalanced])
    (by norm_num [wBalanced])
    (Or.inl (by norm_num [wBalanced]))
    (by decide)
    (by norm_num [f1c4, f2c4, sampleFlight])
    (by decide) (by decide) ht
  exact ⟨⟨by norm_num [wBalanced], by norm_num [f1c4, f2c4, sampleFlight], by decide, by decide⟩,
    h.1⟩

/-! ## Calendar arithmetic and the flexible time parser (pkg/utils)

`time.Date(y, m, d, h, min, s, ns, loc)` for one of the program's
fixed-offset zones denotes the instant `wallSecsAbs - unixEpochAbs - offset`
in the proleptic Gregorian calendar; the embedding computes day counts from
year 0 exactly as Go's `time` package does for in-range dates.  The parser
embeds the layouts `ParseTime` tries that can occur in backend payloads:
RFC-3339 with `Z` or an explicit `±hh:mm` offset (fractional seconds
accepted and truncated), and the naive `2006-01-02T15:04:05`, which is
interpreted in UTC by `time.Parse` (before the adapter re-stamps it). -/

/-- A parsed wall-clock reading. -/
structure WallClock where
  year : Nat
  month : Nat
  day : Nat
  hour : Nat
  minute : Nat
  second : Nat
  deriving Repr, DecidableEq

/-- Gregorian leap year. -/
def isLeapYear (y : Nat) : Bool := (y % 4 == 0 && y % 100 != 0) || y % 400 == 0

/-- Days before the given month in a non-leap year. -/
def daysBeforeMonth (m : Nat) : Nat :=
  match m with
  | 1 => 0 | 2 => 31 | 3 => 59 | 4 => 90 | 5 => 120 | 6 => 151
  | 7 => 181 | 8 => 212 | 9 => 243 | 10 => 273 | 11 => 304 | 12 => 334
  | _ => 0

/-- Length of a month. -/
def daysInMonth (leap : Bool) (m : Nat) : Nat :=
  match m with
  | 1 => 31 | 2 => if leap then 29 else 28 | 3 => 31 | 4 => 30 | 5 => 31 | 6 => 30
  | 7 => 31 | 8 => 31 | 9 => 30 | 10 => 31 | 11 => 30 | 12 => 31
  | _ => 0

/-- Zero-based day of the year. -/
def dayOfYear (leap : Bool) (m d : Nat) : Nat :=
  daysBeforeMonth m + (if leap ∧ 3 ≤ m then 1 else 0) + (d - 1)

/-- Leap years before year `y` (year 0 counts as leap). -/
def leapsB4 (y : Nat) : Nat := (y + 3) / 4 + (y + 399) / 400 - (y + 99) / 100

/-- Days from 0000-01-01 to the start of year `y`. -/
def daysB4Year (y : Nat) : Nat := 365 * y + leapsB4 y

/-- Days from 0000-01-01 to the given date. -/
def civilDays (w : WallClock) : Nat :=
  daysB4Year w.year + dayOfYear (isLeapYear w.year) w.month w.day

/-- Seconds from 0000-01-01T00:00:00 to the given wall clock. -/
def wallSecsAbs (w : WallClock) : Int :=
  (civilDays w : Int) * 86400 + w.hour * 3600 + w.minute * 60 + w.second

/-- 0000-01-01 to 1970-01-01 in days (`daysB4Year 1970`). -/
def unixEpochDays : Nat := 719528

/-- The Unix instant of a wall clock read in a zone with the given UTC
offset in minutes: `time.Date(..., loc).Unix()`. -/
def epochFromWall (w : WallClock) (offsetMin : Int) : Int :=
  wallSecsAbs w - (unixEpochDays : Int) * 86400 - offsetMin * 60

/-- A wall clock whose fields are in range (what `time.Parse` accepts). -/
def validWall (w : WallClock) : Prop :=
  1 ≤ w.month ∧ w.month ≤ 12 ∧ 1 ≤ w.day ∧ w.day ≤ daysInMonth (isLeapYear w.year) w.month
    ∧ w.hour ≤ 23 ∧ w.minute ≤ 59 ∧ w.second ≤ 59

instance (w : WallClock) : Decidable (validWall w) := by
  unfold validWall
  infer_instance

/-- Lexicographic order on wall clocks: `w1` reads no later than `w2`. -/
def wallLe (w1 w2 : WallClock) : Prop :=
  w1.year < w2.year
  ∨ (w1.year = w2.year
    ∧ (w1.month < w2.month
      ∨ (w1.month = w2.month
        ∧ (w1.day < w2.day
          ∨ (w1.day = w2.day
            ∧ (w1.hour < w2.hour
              ∨ (w1.hour = w2.hour
                ∧ (w1.minute < w2.minute
                  ∨ (w1.minute = w2.minute ∧ w1.second ≤ w2.second)))))))))

instance (w1 w2 : WallClock) : Decidable (wallLe w1 w2) := by
  unfold wallLe
  infer_instance

/-- Value of a decimal digit character. -/
def digitVal (c : Char) : Option Nat :=
  if 48 ≤ c.toNat ∧ c.toNat ≤ 57 then some (c.toNat - 48) else none

/-- Read exactly `n` decimal digits. -/
def readN : Nat → List Char → Option (Nat × List Char)
  | 0, cs => some (0, cs)
  | _ + 1, [] => none
  | n + 1, c :: cs => do
    let d ← digitVal c
    let (rest, cs2) ← readN n cs
    pure (d * 10 ^ n + rest, cs2)

/-- Expect a literal character. -/
def expectChar (c : Char) : List Char → Option (List Char)
  | x :: rest => if x = c then some rest else none
  | [] => none

/-- Drop an optional fractional-seconds suffix (Go truncates it to the
nanosecond field, which the claims do not involve). -/
def skipFraction : List Char → List Char
  | '.' :: rest => rest.dropWhile (fun c => 48 ≤ c.toNat && c.toNat ≤ 57)
  | cs => cs

/-- Parse `2006-01-02T15:04:05` with range validation, leaving the rest. -/
def parseCore (cs : List Char) : Option (WallClock × List Char) := do
  let (y, cs) ← readN 4 cs
  let cs ← expectChar '-' cs
  let (mo, cs) ← readN 2 cs
  let cs ← expectChar '-' cs
  let (d, cs) ← readN 2 cs
  let cs ← expectChar 'T' cs
  let (h, cs) ← readN 2 cs
  let cs ← expectChar ':' cs
  let (mi, cs) ← readN 2 cs
  let cs ← expectChar ':' cs
  let (sec, cs) ← readN 2 cs
  let cs := skipFraction cs
  let w : WallClock := ⟨y, mo, d, h, mi, sec⟩
  if validWall w then pure (w, cs) else none

/-- Parse the `±hh:mm` tail of an offset, in minutes. -/
def readOffsetMin (cs : List Char) : Option Int := do
  let (oh, cs) ← readN 2 cs
  let cs ← expectChar ':' cs
  let (om, cs) ← readN 2 cs
  if cs = [] ∧ oh ≤ 23 ∧ om ≤ 59 then pure ((oh : Int) * 60 + om) else none

/-- The offset tail of the RFC-3339 layout (`Z` = UTC), in minutes. -/
def parseOffsetTail : List Char → Option Int
  | ['Z'] => some 0
  | '+' :: rest => readOffsetMin rest
  | '-' :: rest => (readOffsetMin rest).map (fun off => -off)
  | _ => none

/-- RFC-3339 layout: wall clock plus explicit offset (`Z` = UTC). -/
def parseRFC3339 (s : String) : Option (WallClock × Int) := do
  let (w, cs) ← parseCore s.data
  let off ← parseOffsetTail cs
  pure (w, off)

/-- Naive layout `2006-01-02T15:04:05`: `time.Parse` reads it in UTC. -/
def parseNaiveStr (s : String) : Option WallClock := do
  let (w, cs) ← parseCore s.data
  if cs = [] then pure w else none

/-- `utils.ParseFlexibleTime`: offset-bearing layouts take precedence over
the naive one, a naive reading carries the UTC offset 0. -/
def parseFlexibleTime (s : String) : Option (WallClock × Int) :=
  match parseRFC3339 s with
  | some r => some r
  | none => (parseNaiveStr s).map (fun w => (w, 0))

/-! ## Airport tables and adapter helpers -/

/-- `utils.GetTimezone`: airport code → IANA zone name, defaulting to WIB. -/
def getTimezone (airportCode : String) : String :=
  if airportCode ∈ ["CGK", "SUB", "KNO", "PLM", "PDG", "BTJ", "PKU", "BDO", "SRG", "JOG"] then
    "Asia/Jakarta"
  else if airportCode ∈ ["DPS", "UPG", "BPN", "LOP", "BDJ", "SOC", "PKY", "MDC"] then
    "Asia/Makassar"
  else if airportCode ∈ ["DJJ", "AMQ", "TIM", "SRR"] then
    "Asia/Jayapura"
  else "Asia/Jakarta"

/-- The UTC offsets `time.LoadLocation` yields for the three zones the
table uses (fixed offsets, no DST); unknown names fall back to UTC as the
adapter does on a `LoadLocation` error. -/
def zoneOffsetMin (loc : String) : Int :=
  if loc = "Asia/Jakarta" then 420
  else if loc = "Asia/Makassar" then 480
  else if loc = "Asia/Jayapura" then 540
  else 0

/-- `utils.GetCityName`: static IATA → city table, code itself if unknown. -/
def getCityName (airportCode : String) : String :=
  if airportCode = "CGK" then "Jakarta" else if airportCode = "DPS" then "Denpasar"
  else if airportCode = "SUB" then "Surabaya" else if airportCode = "KNO" then "Medan"
  else if airportCode = "PLM" then "Palembang" else if airportCode = "PDG" then "Padang"
  else if airportCode = "BTJ" then "Banda Aceh" else if airportCode = "PKU" then "Pekanbaru"
  else if airportCode = "BDO" then "Bandung" else if airportCode = "SRG" then "Semarang"
  else if airportCode = "JOG" then "Yogyakarta" else if airportCode = "UPG" then "Makassar"
  else if airportCode = "BPN" then "Balikpapan" else if airportCode = "LOP" then "Lombok"
  else if airportCode = "BDJ" then "Banjarmasin" else if airportCode = "SOC" then "Solo"
  else if airportCode = "PKY" then "Palangkaraya" else if airportCode = "MDC" then "Manado"
  else if airportCode = "DJJ" then "Jayapura" else if airportCode = "AMQ" then "Ambon"
  else if airportCode = "TIM" then "Timika" else if airportCode = "SRR" then "Sorong"
  else airportCode

/-- `utils.ExtractAirlineCode`: the prefix before the first decimal digit;
empty for inputs shorter than two characters, whole string if no digit. -/
def extractAirlineCode (flightNumber : String) : String :=
  if flightNumber.length < 2 then ""
  else
    match flightNumber.data.findIdx? (fun c => 48 ≤ c.toNat && c.toNat ≤ 57) with
    | some i => ⟨flightNumber.data.take i⟩
    | none => flightNumber

/-- `utils.FormatDuration`: `"Nh Mm"`, `"Nh"` or `"Mm"`. -/
def formatDuration (minutes : Int) : String :=
  if minutes.tdiv 60 > 0 ∧ minutes.tmod 60 > 0 then
    toString (minutes.tdiv 60) ++ "h " ++ toString (minutes.tmod 60) ++ "m"
  else if minutes.tdiv 60 > 0 then toString (minutes.tdiv 60) ++ "h"
  else toString (minutes.tmod 60) ++ "m"

/-- Go `strings.TrimSpace` (ASCII whitespace). -/
def goTrimSpace (s : String) : String :=
  ⟨((s.data.dropWhile (fun c => c = ' ' || c = '\t' || c = '\n' || c = '\r')).reverse.dropWhile
    (fun c => c = ' ' || c = '\t' || c = '\n' || c = '\r')).reverse⟩

/-- Go `strings.Split(s, ",")`. -/
def splitOnComma (s : String) : List String := (s.data.splitOn ',').map String.mk

/-! ## AirAsia provider adapter (internal/providers/airasia.go) -/

/-- One stop record of an AirAsia payload flight. -/
structure AirAsiaStop where
  airport : String
  waitTimeMinutes : Int
  deriving Repr, DecidableEq

/-- `providers.AirAsiaFlight`, the backend payload record. -/
structure AirAsiaFlight where
  flightCode : String
  airline : String
  fromAirport : String
  toAirport : String
  departTime : String
  arriveTime : String
  durationHours : ℚ
  directFlight : Bool
  stops : List AirAsiaStop
  priceIDR : ℚ
  seats : Int
  cabinClass : String
  baggageNote : String
  deriving Repr, DecidableEq

/-- The baggage split of `AirAsiaProvider.convertToFlight`: first
comma-separated segment is carry-on, second is checked. -/
def airAsiaBaggage (note : String) : BaggageInfo :=
  if note = "" then ⟨"", ""⟩
  else
    let parts := splitOnComma note
    ⟨if parts.length ≥ 1 then goTrimSpace (parts.getD 0 "") else "",
     if parts.length ≥ 2 then goTrimSpace (parts.getD 1 "") else ""⟩

/-- `AirAsiaProvider.convertToFlight`: parse each timestamp, then re-stamp
its wall-clock fields into the airport's zone (`time.Date(t.Year(), ...,
tz)`), discarding any offset the source carried; duration is
`int(DurationHours * 60)`; stops is 0 for a direct flight, else the length
of the stop list. -/
def airAsiaConvertToFlight (providerName : String) (af : AirAsiaFlight) : Option Flight := do
  let dep ← parseFlexibleTime af.departTime
  let depOff := zoneOffsetMin (getTimezone af.fromAirport)
  let departureTime : DateTime := ⟨epochFromWall dep.1 depOff, depOff⟩
  let arr ← parseFlexibleTime af.arriveTime
  let arrOff := zoneOffsetMin (getTimezone af.toAirport)
  let arrivalTime : DateTime := ⟨epochFromWall arr.1 arrOff, arrOff⟩
  let durationMinutes := truncQ (af.durationHours * 60)
  let stops : Int := if af.directFlight then 0 else (af.stops.length : Int)
  pure
    { id := af.flightCode ++ "_" ++ providerName
      provider := providerName
      flightNumber := af.flightCode
      airline := ⟨af.airline, extractAirlineCode af.flightCode⟩
      departure := ⟨af.fromAirport, getCityName af.fromAirport, departureTime,
                    departureTime.unix⟩
      arrival := ⟨af.toAirport, getCityName af.toAirport, arrivalTime, arrivalTime.unix⟩
      duration := ⟨durationMinutes, formatDuration durationMinutes⟩
      stops := stops
      price := ⟨af.priceIDR, "IDR"⟩
      cabinClass := af.cabinClass
      availableSeats := af.seats
      aircraft := ""
      amenities := []
      baggage := airAsiaBaggage af.baggageNote }

theorem isLeapYear_iff (y : Nat) :
    isLeapYear y = true ↔ ((y % 4 = 0 ∧ ¬ y % 100 = 0) ∨ y % 400 = 0) := by
  simp [isLeapYear]

theorem leapsB4_succ_leap (y : Nat)
    (h : (y % 4 = 0 ∧ ¬ y % 100 = 0) ∨ y % 400 = 0) :
    leapsB4 (y + 1) = leapsB4 y + 1 := by
  unfold leapsB4
  rcases h with ⟨h1, h2⟩ | h1 <;> omega

theorem leapsB4_succ_non (y : Nat)
    (h : ¬ ((y % 4 = 0 ∧ ¬ y % 100 = 0) ∨ y % 400 = 0)) :
    leapsB4 (y + 1) = leapsB4 y := by
  push_neg at h
  unfold leapsB4
  rcases Nat.eq_zero_or_pos (y % 4) with h4 | h4
  · have h100 := h.1 h4
    omega
  · omega

theorem dayOfYear_bound (b : Bool) (m d : Nat) (hm1 : 1 ≤ m) (hm2 : m ≤ 12)
    (hd2 : d ≤ daysInMonth b m) :
    dayOfYear b m d ≤ 364 + (if b then 1 else 0) := by
  cases b <;> interval_cases m <;>
    simp_all [dayOfYear, daysBeforeMonth, daysInMonth] <;> omega

theorem dayOfYear_month_step (b : Bool) (m : Nat) (hm1 : 1 ≤ m) (hm2 : m ≤ 11) :
    dayOfYear b m 1 + daysInMonth b m ≤ dayOfYear b (m + 1) 1 := by
  cases b <;> interval_cases m <;> decide

theorem dayOfYear_month_mono (b : Bool) (m1 m2 : Nat) (hm1 : 1 ≤ m1) (hlt : m1 < m2)
    (hm2 : m2 ≤ 12) :
    dayOfYear b m1 1 + daysInMonth b m1 ≤ dayOfYear b m2 1 := by
  induction m2 with
  | zero => omega
  | succ n ih =>
    rcases Nat.lt_or_ge m1 n with h | h
    · have hstep : dayOfYear b n 1 + daysInMonth b n ≤ dayOfYear b (n + 1) 1 :=
        dayOfYear_month_step b n (by omega) (by omega)
      have := ih h (by omega)
      omega
    · have heq : n = m1 := by omega
      subst heq
      exact dayOfYear_month_step b n hm1 (by omega)

theorem dayOfYear_lt_of_lex (b : Bool) (m1 d1 m2 d2 : Nat)
    (hm11 : 1 ≤ m1) (hd11 : 1 ≤ d1) (hd12 : d1 ≤ daysInMonth b m1)
    (hm21 : 1 ≤ m2) (hm22 : m2 ≤ 12) (hd21 : 1 ≤ d2)
    (hlex : m1 < m2 ∨ (m1 = m2 ∧ d1 < d2)) :
    dayOfYear b m1 d1 < dayOfYear b m2 d2 := by
  rcases hlex with hlt | ⟨heq, hdlt⟩
  · have hmono := dayOfYear_month_mono b m1 m2 hm11 hlt hm22
    unfold dayOfYear at hmono ⊢
    omega
  · subst heq
    unfold dayOfYear
    omega

/-- Every valid date of year `y` is counted before the start of year
`y + 1`. -/
theorem civilDays_lt_next_year (w : WallClock) (hv : validWall w) :
    civilDays w < daysB4Year (w.year + 1) := by
  obtain ⟨hm1, hm2, hd1, hd2, _⟩ := hv
  cases hly : isLeapYear w.year
  · have hb := dayOfYear_bound false w.month w.day hm1 hm2 (by rw [hly] at hd2; exact hd2)
    have hprop : ¬ ((w.year % 4 = 0 ∧ ¬ w.year % 100 = 0) ∨ w.year % 400 = 0) := by
      rw [← isLeapYear_iff]
      simp [hly]
    have hstep := leapsB4_succ_non w.year hprop
    unfold civilDays daysB4Year
    rw [hly]
    simp at hb
    omega
  · have hb := dayOfYear_bound true w.month w.day hm1 hm2 (by rw [hly] at hd2; exact hd2)
    have hprop : (w.year % 4 = 0 ∧ ¬ w.year % 100 = 0) ∨ w.year % 400 = 0 :=
      (isLeapYear_iff w.year).mp hly
    have hstep := leapsB4_succ_leap w.year hprop
    unfold civilDays daysB4Year
    rw [hly]
    simp at hb
    omega

theorem daysB4Year_succ_ge (y : Nat) : daysB4Year y + 365 ≤ daysB4Year (y + 1) := by
  by_cases h : (y % 4 = 0 ∧ ¬ y % 100 = 0) ∨ y % 400 = 0
  · have := leapsB4_succ_leap y h
    unfold daysB4Year
    omega
  · have := leapsB4_succ_non y h
    unfold daysB4Year
    omega

theorem daysB4Year_mono {a b : Nat} (h : a ≤ b) : daysB4Year a ≤ daysB4Year b := by
  induction b with
  | zero =>
    have : a = 0 := by omega
    subst this
    exact le_refl _
  | succ n ih =>
    rcases Nat.lt_or_ge a (n + 1) with h2 | h2
    · have := ih (by omega)
      have := daysB4Year_succ_ge n
      omega
    · have : a = n + 1 := by omega
      subst this
      exact le_refl _

/-- Calendar-to-seconds conversion is monotone on valid wall clocks with
respect to the lexicographic reading order. -/
theorem wallSecsAbs_le_of_wallLe (w1 w2 : WallClock) (h1 : validWall w1)
    (h2 : validWall w2) (hle : wallLe w1 w2) : wallSecsAbs w1 ≤ wallSecsAbs w2 := by
  obtain ⟨hm11, hm12, hd11, hd12, hh1, hmi1, hs1⟩ := h1
  obtain ⟨hm21, hm22, hd21, hd22, hh2, hmi2, hs2⟩ := h2
  rcases hle with hylt | ⟨hyeq, hrest⟩
  · have hlt1 := civilDays_lt_next_year w1 ⟨hm11, hm12, hd11, hd12, hh1, hmi1, hs1⟩
    have hmono := daysB4Year_mono (show w1.year + 1 ≤ w2.year by omega)
    have hc2 : daysB4Year w2.year ≤ civilDays w2 := by
      unfold civilDays
      omega
    unfold wallSecsAbs
    have hcc : civilDays w1 + 1 ≤ civilDays w2 := by omega
    omega
  · have hleap : isLeapYear w2.year = isLeapYear w1.year := by rw [hyeq]
    rcases hrest with hmlt | ⟨hmeq, hrest2⟩
    · have hdoy := dayOfYear_lt_of_lex (isLeapYear w1.year) w1.month w1.day w2.month w2.day
        hm11 hd11 hd12 hm21 hm22 hd21 (Or.inl hmlt)
      unfold wallSecsAbs civilDays
      rw [hyeq, hleap] at *
      omega
    · rcases hrest2 with hdlt | ⟨hdeq, htod⟩
      · have hdoy := dayOfYear_lt_of_lex (isLeapYear w1.year) w1.month w1.day w2.month w2.day
          hm11 hd11 hd12 hm21 hm22 hd21 (Or.inr ⟨hmeq, hdlt⟩)
        unfold wallSecsAbs civilDays
        rw [hyeq, hleap] at *
        omega
      · unfold wallSecsAbs civilDays
        rw [hyeq, hleap, hmeq, hdeq] at *
        rcases htod with hhlt | ⟨hheq, hmin | ⟨hmineq, hsle⟩⟩ <;> omega

/-- A successfully parsed timestamp has in-range fields (`time.Parse`
validates them). -/
theorem parseCore_valid (cs : List Char) (w : WallClock) (rest : List Char)
    (h : parseCore cs = some (w, rest)) : validWall w := by
  unfold parseCore at h
  simp only [bind, Option.bind_eq_some, Option.pure_def, Option.some.injEq] at h
  obtain ⟨⟨y, cs1⟩, hy, cs2, hc2, ⟨mo, cs3⟩, hmo, cs4, hc4, ⟨d, cs5⟩, hd, cs6, hc6,
    ⟨hh, cs7⟩, hhh, cs8, hc8, ⟨mi, cs9⟩, hmi, cs10, hc10, ⟨sec, cs11⟩, hsec, hfin⟩ := h
  split at hfin
  · rename_i hcond
    cases hfin
    exact hcond
  · cases hfin

theorem parseFlexibleTime_valid (s : String) (w : WallClock) (off : Int)
    (h : parseFlexibleTime s = some (w, off)) : validWall w := by
  unfold parseFlexibleTime at h
  cases hr : parseRFC3339 s with
  | some r =>
    rw [hr] at h
    cases h
    unfold parseRFC3339 at hr
    simp only [bind, Option.bind_eq_some, Option.pure_def, Option.some.injEq] at hr
    obtain ⟨⟨w2, cs⟩, hcore, off2, hoff, hfin⟩ := hr
    cases hfin
    exact parseCore_valid s.data _ _ hcore
  | none =>
    rw [hr] at h
    simp only [Option.map_eq_some'] at h
    obtain ⟨w2, hnv, hfin⟩ := h
    cases hfin
    unfold parseNaiveStr at hnv
    simp only [bind, Option.bind_eq_some, Option.pure_def, Option.some.injEq] at hnv
    obtain ⟨⟨w3, cs⟩, hcore, hfin2⟩ := hnv
    split at hfin2
    · cases hfin2
      exact parseCore_valid s.data _ _ hcore
    · cases hfin2

/-- **C3 (amended).** A flight record emitted by the AirAsia adapter
satisfies `arrival.timestamp ≥ departure.timestamp` whenever both airports
map to the same timezone and the parsed arrival wall clock does not read
earlier than the parsed departure wall clock.  Across distinct timezones
the re-stamping can invert the order even for a payload whose original
instants are consistent (see the counterexample). -/
theorem airAsiaConvert_arrival_ge_departure_same_zone (pname : String) (af : AirAsiaFlight)
    (f : Flight) (wd wa : WallClock) (od oa : Int)
    (hdp : parseFlexibleTime af.departTime = some (wd, od))
    (hap : parseFlexibleTime af.arriveTime = some (wa, oa))
    (hzone : getTimezone af.fromAirport = getTimezone af.toAirport)
    (hle : wallLe wd wa)
    (hconv : airAsiaConvertToFlight pname af = some f) :
    f.departure.timestamp ≤ f.arrival.timestamp := by
  unfold airAsiaConvertToFlight at hconv
  rw [hdp, hap] at hconv
  simp only [bind, Option.some_bind, Option.pure_def, Option.some.injEq] at hconv
  rw [← hconv]
  show epochFromWall wd (zoneOffsetMin (getTimezone af.fromAirport))
      ≤ epochFromWall wa (zoneOffsetMin (getTimezone af.toAirport))
  rw [hzone]
  have hmono := wallSecsAbs_le_of_wallLe wd wa
    (parseFlexibleTime_valid af.departTime wd od hdp)
    (parseFlexibleTime_valid af.arriveTime wa oa hap) hle
  unfold epochFromWall
  omega

/-- A realistic AirAsia payload record for a short westbound hop
SUB (WIB, UTC+7) → DPS (WITA, UTC+8), 50 minutes in the air, with both
timestamps reported as consistent UTC instants (explicit `Z` offsets). -/
def afC3 : AirAsiaFlight :=
  { flightCode := "QZ535", airline := "AirAsia"
    fromAirport := "SUB", toAirport := "DPS"
    departTime := "2025-12-15T03:00:00Z", arriveTime := "2025-12-15T03:50:00Z"
    durationHours := 5/6, directFlight := true, stops := []
    priceIDR := 950000, seats := 40, cabinClass := "economy"
    baggageNote := "7kg cabin, 20kg checked" }

set_option maxRecDepth 100000 in
theorem airAsiaConvert_timestamp_counterexample :
    ((parseFlexibleTime afC3.arriveTime).map (fun p => epochFromWall p.1 p.2)
      = (parseFlexibleTime afC3.departTime).map (fun p => epochFromWall p.1 p.2 + 3000))
    ∧ (airAsiaConvertToFlight "AirAsia" afC3).map
        (fun f => f.arrival.timestamp - f.departure.timestamp) = some (-600) := by
  constructor
  · decide
  · decide

/-- A same-zone AirAsia payload record: CGK → SUB, both WIB, naive
timestamps. -/
def afW3 : AirAsiaFlight :=
  { flightCode := "QZ7681", airline := "AirAsia"
    fromAirport := "CGK", toAirport := "SUB"
    departTime := "2025-12-15T06:00:00", arriveTime := "2025-12-15T07:30:00"
    durationHours := 3/2, directFlight := true, stops := []
    priceIDR := 800000, seats := 30, cabinClass := "economy"
    baggageNote := "" }

set_option maxRecDepth 100000 in
theorem airAsiaConvert_arrival_ge_departure_same_zone_witness :
    (getTimezone afW3.fromAirport = getTimezone afW3.toAirport
      ∧ wallLe ⟨2025, 12, 15, 6, 0, 0⟩ ⟨2025, 12, 15, 7, 30, 0⟩)
    ∧ (airAsiaConvertToFlight "AirAsia" afW3).map
        (fun f => decide (f.departure.timestamp ≤ f.arrival.timestamp)) = some true := by
  have hs : (airAsiaConvertToFlight "AirAsia" afW3).isSome = true := by decide
  obtain ⟨f, hf⟩ := Option.isSome_iff_exists.mp hs
  have hwd : parseFlexibleTime afW3.departTime = some (⟨2025, 12, 15, 6, 0, 0⟩, 0) := by
    decide
  have hwa : parseFlexibleTime afW3.arriveTime = some (⟨2025, 12, 15, 7, 30, 0⟩, 0) := by
    decide
  have h := airAsiaConvert_arrival_ge_departure_same_zone "AirAsia" afW3 f
    ⟨2025, 12, 15, 6, 0, 0⟩ ⟨2025, 12, 15, 7, 30, 0⟩ 0 0 hwd hwa (by decide) (by decide) hf
  refine ⟨⟨by decide, by decide⟩, ?_⟩
  rw [hf]
  simp only [Option.map_some']
  rw [decide_eq_true h]

/-! ## Go's `sort.Slice` (pattern-defeating quicksort) and the sorter

`Sorter.Sort` and `Scorer.ScoreFlights` order their slices with Go's
`sort.Slice`, which is documented as **not** stable and implemented (since
Go 1.19; the module requires Go ≥ 1.21) by `pdqsort_func` in
`sort/zsortfunc.go`.  The embedding below reproduces that algorithm —
insertion sort below 13 elements, heapsort fallback, pattern breaking with
the `xorshift` generator, pivot selection by (ninther) median, partial
insertion sort, and the two partition schemes — over a list and a `less`
predicate.  Go loops are rendered as structural recursion on an explicit
fuel counter that is always at least the number of iterations the Go loop
performs, so the embedding computes the same result. -/

/-- Read `slice[i]` (every access the algorithm makes is in bounds). -/
def lget {α : Type} [Inhabited α] : List α → Nat → α
  | [], _ => default
  | a :: _, 0 => a
  | _ :: t, n + 1 => lget t n

/-- Write `slice[i] = b` (out of range leaves the slice unchanged). -/
def lset {α : Type} : List α → Nat → α → List α
  | [], _, _ => []
  | _ :: t, 0, b => b :: t
  | a :: t, n + 1, b => a :: lset t n b

/-- `data.Swap(i, j)`. -/
def lswap {α : Type} [Inhabited α] (l : List α) (i j : Nat) : List α :=
  lset (lset l i (lget l j)) j (lget l i)

/-- The inner loop of `insertionSort_func`. -/
def insInner {α : Type} [Inhabited α] (less : α → α → Bool) :
    Nat → List α → Nat → Nat → List α
  | 0, l, _, _ => l
  | fuel + 1, l, a, j =>
    if a < j ∧ less (lget l j) (lget l (j - 1)) then
      insInner less fuel (lswap l j (j - 1)) a (j - 1)
    else l

/-- The outer loop of `insertionSort_func` (`i` from `a+1` to `b-1`). -/
def insOuter {α : Type} [Inhabited α] (less : α → α → Bool) :
    Nat → List α → Nat → Nat → Nat → List α
  | 0, l, _, _, _ => l
  | fuel + 1, l, a, b, i =>
    if i < b then insOuter less fuel (insInner less i l a i) a b (i + 1) else l

/-- `insertionSort_func(data, a, b)`. -/
def insertionSortGo {α : Type} [Inhabited α] (less : α → α → Bool)
    (l : List α) (a b : Nat) : List α :=
  insOuter less (b - a) l a b (a + 1)

/-- `siftDown_func(data, root, hi, first)`. -/
def siftDownGo {α : Type} [Inhabited α] (less : α → α → Bool) :
    Nat → List α → Nat → Nat → Nat → List α
  | 0, l, _, _, _ => l
  | fuel + 1, l, root, hi, first =>
    let child0 := 2 * root + 1
    if child0 ≥ hi then l
    else
      let child :=
        if child0 + 1 < hi ∧ less (lget l (first + child0)) (lget l (first + child0 + 1))
        then child0 + 1 else child0
      if ¬ less (lget l (first + root)) (lget l (first + child)) then l
      else siftDownGo less fuel (lswap l (first + root) (first + child)) child hi first

/-- The heap-construction loop of `heapSort_func` (`i` from `(hi-1)/2`
down to 0; the counter is `i + 1`). -/
def heapBuild {α : Type} [Inhabited α] (less : α → α → Bool) :
    Nat → List α → Nat → Nat → List α
  | 0, l, _, _ => l
  | c + 1, l, hi, first => heapBuild less c (siftDownGo less hi l c hi first) hi first

/-- The pop loop of `heapSort_func` (`i` from `hi-1` down to 0). -/
def heapPop {α : Type} [Inhabited α] (less : α → α → Bool) :
    Nat → List α → Nat → List α
  | 0, l, _ => l
  | c + 1, l, first =>
    heapPop less c (siftDownGo less (c + 1) (lswap l first (first + c)) 0 c first) first

/-- `heapSort_func(data, a, b)`. -/
def heapSortGo {α : Type} [Inhabited α] (less : α → α → Bool)
    (l : List α) (a b : Nat) : List α :=
  heapPop less (b - a) (heapBuild less ((b - a - 1) / 2 + 1) l (b - a) a) a

/-- `order2_func`: the two indices in order plus the updated swap count. -/
def order2Go {α : Type} [Inhabited α] (less : α → α → Bool) (l : List α)
    (i j swaps : Nat) : Nat × Nat × Nat :=
  if less (lget l j) (lget l i) then (j, i, swaps + 1) else (i, j, swaps)

/-- `median_func`: the index of the median of three. -/
def medianGo {α : Type} [Inhabited α] (less : α → α → Bool) (l : List α)
    (a b c swaps : Nat) : Nat × Nat :=
  match order2Go less l a b swaps with
  | (a1, b1, s1) =>
    match order2Go less l b1 c s1 with
    | (b2, _, s2) =>
      match order2Go less l a1 b2 s2 with
      | (_, b3, s3) => (b3, s3)

/-- `medianAdjacent_func`. -/
def medianAdjacentGo {α : Type} [Inhabited α] (less : α → α → Bool) (l : List α)
    (i swaps : Nat) : Nat × Nat :=
  medianGo less l (i - 1) i (i + 1) swaps

/-- The three pivot hints of `choosePivot_func`. -/
inductive SortedHint where
  | unknown : SortedHint
  | increasing : SortedHint
  | decreasing : SortedHint
  deriving Repr, DecidableEq

/-- The hint for a given number of comparison swaps (`maxSwaps = 12`). -/
def hintOfSwaps (swaps : Nat) : SortedHint :=
  if swaps = 0 then SortedHint.increasing
  else if swaps = 12 then SortedHint.decreasing
  else SortedHint.unknown

/-- `choosePivot_func(data, a, b)`. -/
def choosePivotGo {α : Type} [Inhabited α] (less : α → α → Bool) (l : List α)
    (a b : Nat) : Nat × SortedHint :=
  let ln := b - a
  let i := a + ln / 4 * 1
  let j := a + ln / 4 * 2
  let k := a + ln / 4 * 3
  if 8 ≤ ln then
    if 50 ≤ ln then
      match medianAdjacentGo less l i 0 with
      | (i2, s1) =>
        match medianAdjacentGo less l j s1 with
        | (j2, s2) =>
          match medianAdjacentGo less l k s2 with
          | (k2, s3) =>
            match medianGo less l i2 j2 k2 s3 with
            | (j3, s4) => (j3, hintOfSwaps s4)
    else
      match medianGo less l i j k 0 with
      | (j3, s4) => (j3, hintOfSwaps s4)
  else (j, SortedHint.increasing)

/-- One step of the `xorshift` generator of the sort package
(64-bit state). -/
def xorshiftNext (r : Nat) : Nat :=
  let r1 := (Nat.xor r ((r * 2 ^ 13) % 2 ^ 64)) % 2 ^ 64
  let r2 := Nat.xor r1 (r1 / 2 ^ 7)
  (Nat.xor r2 ((r2 * 2 ^ 17) % 2 ^ 64)) % 2 ^ 64

/-- `bits.Len` (number of bits of `n`). -/
def natBitsLen : Nat → Nat := go 64 where
  go : Nat → Nat → Nat
    | 0, _ => 0
    | _, 0 => 0
    | fuel + 1, n => go fuel (n / 2) + 1

/-- `nextPowerOfTwo(length) = 1 << bits.Len(length)`. -/
def nextPowerOfTwo (length : Nat) : Nat := 2 ^ natBitsLen length

/-- One swap of `breakPatterns_func`'s loop. -/
def breakPatternsStep {α : Type} [Inhabited α] (l : List α)
    (a length modulus idx i r : Nat) : List α × Nat :=
  let r2 := xorshiftNext r
  let other := Nat.land r2 (modulus - 1)
  let other2 := if other ≥ length then other - length else other
  (lswap l (idx - 1 + i) (a + other2), r2)

/-- `breakPatterns_func(data, a, b)` (three swaps around the middle). -/
def breakPatternsGo {α : Type} [Inhabited α] (l : List α) (a b : Nat) : List α :=
  let length := b - a
  if 8 ≤ length then
    let modulus := nextPowerOfTwo length
    let idx := a + length / 4 * 2 - 1
    match breakPatternsStep l a length modulus idx 0 length with
    | (l0, r0) =>
      match breakPatternsStep l0 a length modulus idx 1 r0 with
      | (l1, r1) => (breakPatternsStep l1 a length modulus idx 2 r1).1
  else l

/-- `reverseRange_func(data, a, b)` (`j` starts at `b - 1`). -/
def reverseRangeGo {α : Type} [Inhabited α] : Nat → List α → Nat → Nat → List α
  | 0, l, _, _ => l
  | fuel + 1, l, i, j => if i < j then reverseRangeGo fuel (lswap l i j) (i + 1) (j - 1) else l

/-- `partialInsertionSort_func`: advance `i` past the already ordered
front (`for i < b && !data.Less(i, i-1)`). -/
def pisAdvance {α : Type} [Inhabited α] (less : α → α → Bool) :
    Nat → List α → Nat → Nat → Nat
  | 0, _, _, i => i
  | fuel + 1, l, b, i =>
    if i < b ∧ ¬ less (lget l i) (lget l (i - 1)) then pisAdvance less fuel l b (i + 1)
    else i

/-- `partialInsertionSort_func`: shift the smaller element to the left. -/
def pisShiftLeft {α : Type} [Inhabited α] (less : α → α → Bool) :
    Nat → List α → Nat → List α
  | 0, l, _ => l
  | fuel + 1, l, j =>
    if 1 ≤ j ∧ less (lget l j) (lget l (j - 1)) then
      pisShiftLeft less fuel (lswap l j (j - 1)) (j - 1)
    else l

/-- `partialInsertionSort_func`: shift the greater element to the right. -/
def pisShiftRight {α : Type} [Inhabited α] (less : α → α → Bool) :
    Nat → List α → Nat → Nat → List α
  | 0, l, _, _ => l
  | fuel + 1, l, b, j =>
    if j < b ∧ less (lget l j) (lget l (j - 1)) then
      pisShiftRight less fuel (lswap l j (j - 1)) b (j + 1)
    else l

/-- The outer loop of `partialInsertionSort_func` (`maxSteps = 5` rounds,
`shortestShifting = 50`); returns the slice and whether it ended sorted. -/
def pisGo {α : Type} [Inhabited α] (less : α → α → Bool) :
    Nat → List α → Nat → Nat → Nat → List α × Bool
  | 0, l, _, _, _ => (l, false)
  | steps + 1, l, a, b, i =>
    let i2 := pisAdvance less b l b i
    if i2 = b then (l, true)
    else if b - a < 50 then (l, false)
    else
      let l1 := lswap l i2 (i2 - 1)
      let l2 := if i2 - a ≥ 2 then pisShiftLeft less (i2 - 1) l1 (i2 - 1) else l1
      let l3 := if b - i2 ≥ 2 then pisShiftRight less (b - i2) l2 b (i2 + 1) else l2
      pisGo less steps l3 a b i2

/-- `partialInsertionSort_func(data, a, b)`. -/
def partialInsertionSortGo {α : Type} [Inhabited α] (less : α → α → Bool)
    (l : List α) (a b : Nat) : List α × Bool :=
  pisGo less 5 l a b (a + 1)

/-- `partition_func`: advance `i` while `i <= j && data.Less(i, a)`. -/
def partAdvanceI {α : Type} [Inhabited α] (less : α → α → Bool) :
    Nat → List α → Nat → Nat → Nat → Nat
  | 0, _, _, i, _ => i
  | fuel + 1, l, a, i, j =>
    if i ≤ j ∧ less (lget l i) (lget l a) then partAdvanceI less fuel l a (i + 1) j
    else i

/-- `partition_func`: retreat `j` while `i <= j && !data.Less(j, a)`. -/
def partRetreatJ {α : Type} [Inhabited α] (less : α → α → Bool) :
    Nat → List α → Nat → Nat → Nat → Nat
  | 0, _, _, _, j => j
  | fuel + 1, l, a, i, j =>
    if i ≤ j ∧ ¬ less (lget l j) (lget l a) then partRetreatJ less fuel l a i (j - 1)
    else j

/-- The main loop of `partition_func` after the first crossing swap. -/
def partMainLoop {α : Type} [Inhabited α] (less : α → α → Bool) :
    Nat → List α → Nat → Nat → Nat → Nat → List α × Nat
  | 0, l, _, _, _, j => (l, j)
  | fuel + 1, l, n, a, i, j =>
    let i2 := partAdvanceI less n l a i j
    let j2 := partRetreatJ less n l a i2 j
    if i2 > j2 then (l, j2)
    else partMainLoop less fuel (lswap l i2 j2) n a (i2 + 1) (j2 - 1)

/-- `partition_func(data, a, b, pivot)`: the rearranged slice, the new
pivot position and the `alreadyPartitioned` flag. -/
def partitionGo {α : Type} [Inhabited α] (less : α → α → Bool)
    (l0 : List α) (a b pivot : Nat) : List α × Nat × Bool :=
  let n := b - a + 1
  let l := lswap l0 a pivot
  let i1 := partAdvanceI less n l a (a + 1) (b - 1)
  let j1 := partRetreatJ less n l a i1 (b - 1)
  if i1 > j1 then (lswap l j1 a, j1, true)
  else
    match partMainLoop less n (lswap l i1 j1) n a (i1 + 1) (j1 - 1) with
    | (l2, j2) => (lswap l2 j2 a, j2, false)

/-- `partitionEqual_func`: advance `i` while `i <= j && !data.Less(a, i)`. -/
def peqAdvanceI {α : Type} [Inhabited α] (less : α → α → Bool) :
    Nat → List α → Nat → Nat → Nat → Nat
  | 0, _, _, i, _ => i
  | fuel + 1, l, a, i, j =>
    if i ≤ j ∧ ¬ less (lget l a) (lget l i) then peqAdvanceI less fuel l a (i + 1) j
    else i

/-- `partitionEqual_func`: retreat `j` while `i <= j && data.Less(a, j)`. -/
def peqRetreatJ {α : Type} [Inhabited α] (less : α → α → Bool) :
    Nat → List α → Nat → Nat → Nat → Nat
  | 0, _, _, _, j => j
  | fuel + 1, l, a, i, j =>
    if i ≤ j ∧ less (lget l a) (lget l j) then peqRetreatJ less fuel l a i (j - 1)
    else j

/-- The loop of `partitionEqual_func`. -/
def peqLoop {α : Type} [Inhabited α] (less : α → α → Bool) :
    Nat → List α → Nat → Nat → Nat → Nat → List α × Nat
  | 0, l, _, _, i, _ => (l, i)
  | fuel + 1, l, n, a, i, j =>
    let i2 := peqAdvanceI less n l a i j
    let j2 := peqRetreatJ less n l a i2 j
    if i2 > j2 then (l, i2)
    else peqLoop less fuel (lswap l i2 j2) n a (i2 + 1) (j2 - 1)

/-- `partitionEqual_func(data, a, b, pivot)`: the slice and the index
of the first element greater than the pivot. -/
def partitionEqualGo {α : Type} [Inhabited α] (less : α → α → Bool)
    (l0 : List α) (a b pivot : Nat) : List α × Nat :=
  peqLoop less (b - a + 1) (lswap l0 a pivot) (b - a + 1) a (a + 1) (b - 1)

/-- `pdqsort_func(data, a, b, limit)` (`maxInsertion = 12`).  The fuel
bounds outer-loop iterations plus recursion depth; every iteration
strictly shrinks the range, so fuel `b - a + 2` always suffices. -/
def pdqsortGo {α : Type} [Inhabited α] (less : α → α → Bool) :
    Nat → List α → Nat → Nat → Nat → Bool → Bool → List α
  | 0, l, _, _, _, _, _ => l
  | fuel + 1, l, a, b, limit, wasBalanced, wasPartitioned =>
    if b - a ≤ 12 then insertionSortGo less l a b
    else if limit = 0 then heapSortGo less l a b
    else
      match (if ¬ wasBalanced then (breakPatternsGo l a b, limit - 1) else (l, limit)) with
      | (l1, limit1) =>
        match choosePivotGo less l1 a b with
        | (p0, h0) =>
          match (if h0 = SortedHint.decreasing then
                   (reverseRangeGo (b - a) l1 a (b - 1), (b - 1) - (p0 - a), SortedHint.increasing)
                 else (l1, p0, h0)) with
          | (l2, pivot, hint) =>
            match (if wasBalanced ∧ wasPartitioned ∧ hint = SortedHint.increasing then
                     partialInsertionSortGo less l2 a b
                   else (l2, false)) with
            | (l3, sorted) =>
              if sorted then l3
              else if 0 < a ∧ ¬ less (lget l3 (a - 1)) (lget l3 pivot) then
                match partitionEqualGo less l3 a b pivot with
                | (l4, mid) => pdqsortGo less fuel l4 mid b limit1 wasBalanced wasPartitioned
              else
                match partitionGo less l3 a b pivot with
                | (l4, mid, alreadyPartitioned) =>
                  if mid - a < b - mid then
                    pdqsortGo less fuel
                      (pdqsortGo less fuel l4 a mid limit1 true true)
                      (mid + 1) b limit1
                      (decide (min (mid - a) (b - mid) ≥ (b - a) / 8)) alreadyPartitioned
                  else
                    pdqsortGo less fuel
                      (pdqsortGo less fuel l4 (mid + 1) b limit1 true true)
                      a mid limit1
                      (decide (min (mid - a) (b - mid) ≥ (b - a) / 8)) alreadyPartitioned

/-- `sort.Slice(x, less)`: `pdqsort_func(lessSwap, 0, n, bits.Len(n))`. -/
def goSortSlice {α : Type} [Inhabited α] (less : α → α → Bool) (l : List α) : List α :=
  pdqsortGo less (l.length + 2) l 0 l.length (natBitsLen l.length) true true

instance : Inhabited Flight := ⟨sampleFlight⟩

instance : Inhabited FlightScore := ⟨⟨sampleFlight, 0, ⟨0, 0, 0, 0⟩⟩⟩

/-- `Sorter.Sort`: copies the slice, derives `ascending := sortOrder != "desc"`,
and dispatches on `sortBy` ("price", "duration", "departure", "arrival",
"stops"; default price ascending), each case an unstable `sort.Slice`. -/
def sorterSort (flights : List Flight) (sortBy sortOrder : String) : List Flight :=
  let ascending := sortOrder ≠ "desc"
  if sortBy = "price" then
    goSortSlice (fun f g => if ascending then decide (f.price.amount < g.price.amount)
      else decide (f.price.amount > g.price.amount)) flights
  else if sortBy = "duration" then
    goSortSlice (fun f g => if ascending then decide (f.duration.totalMinutes < g.duration.totalMinutes)
      else decide (f.duration.totalMinutes > g.duration.totalMinutes)) flights
  else if sortBy = "departure" then
    goSortSlice (fun f g => if ascending then (f.departure.datetime).before (g.departure.datetime)
      else (f.departure.datetime).after (g.departure.datetime)) flights
  else if sortBy = "arrival" then
    goSortSlice (fun f g => if ascending then (f.arrival.datetime).before (g.arrival.datetime)
      else (f.arrival.datetime).after (g.arrival.datetime)) flights
  else if sortBy = "stops" then
    goSortSlice (fun f g => if ascending then decide (f.stops < g.stops)
      else decide (f.stops > g.stops)) flights
  else
    goSortSlice (fun f g => decide (f.price.amount < g.price.amount)) flights

/-- `Scorer.ScoreFlights` including its final `sort.Slice` by descending
score (`scoredArray` is the scored slice before sorting). -/
def scoreFlights (w : ScoringWeights) (flights : List Flight) : List FlightScore :=
  goSortSlice (fun x y => decide (x.score > y.score)) (scoredArray w flights)

/-- A flight differing from `sampleFlight` only in id and stop count:
the sort key under `sortBy = "stops"` is `stops` alone, so all other
fields are irrelevant to the ordering. -/
def mkStopFlight (i : String) (s : Int) : Flight :=
  { sampleFlight with id := i, stops := s }

/-- Thirteen flights (more than `maxInsertion = 12`, so `sort.Slice`
leaves its insertion-sort regime) with alternating stop counts 1,0. -/
def c2Flights : List Flight :=
  [mkStopFlight "a" 1, mkStopFlight "b" 0, mkStopFlight "c" 1, mkStopFlight "d" 0,
   mkStopFlight "e" 1, mkStopFlight "f" 0, mkStopFlight "g" 1, mkStopFlight "h" 0,
   mkStopFlight "i" 1, mkStopFlight "j" 0, mkStopFlight "k" 1, mkStopFlight "l" 0,
   mkStopFlight "m" 1]

/-- **C2** is refuted by the code: sorting is **not** stable.  On thirteen
flights with stop counts 1,0,1,0,… (ids "a"…"m" in input order),
`Sorter.Sort(_, "stops", "asc")` — Go's `sort.Slice` running
`pdqsort_func` — returns ids j,b,d,f,h,l,c,e,g,i,a,k,m.  A stable
ascending sort by stops must keep the six 0-stop flights in input order
b,d,f,h,j,l and the seven 1-stop flights in order a,c,e,g,i,k,m, i.e.
produce b,d,f,h,j,l,a,c,e,g,i,k,m; instead flight "j" overtakes "b",
"d", "f", "h" (all equal keys) and "a" falls behind "c", "e", "g", "i".
The third conjunct records that the output differs from the unique
stable result. -/
theorem sorterSort_unstable_counterexample :
    c2Flights.map (fun f => (f.id, f.stops)) =
      [("a", 1), ("b", 0), ("c", 1), ("d", 0), ("e", 1), ("f", 0), ("g", 1),
       ("h", 0), ("i", 1), ("j", 0), ("k", 1), ("l", 0), ("m", 1)] ∧
    (sorterSort c2Flights "stops" "asc").map (fun f => f.id) =
      ["j", "b", "d", "f", "h", "l", "c", "e", "g", "i", "a", "k", "m"] ∧
    (sorterSort c2Flights "stops" "asc").map (fun f => f.id) ≠
      ["b", "d", "f", "h", "j", "l", "a", "c", "e", "g", "i", "k", "m"] := by
  have h2 : (sorterSort c2Flights "stops" "asc").map (fun f => f.id) =
      ["j", "b", "d", "f", "h", "l", "c", "e", "g", "i", "a", "k", "m"] := by
    simp only [c2Flights, mkStopFlight, sampleFlight, sorterSort, goSortSlice, pdqsortGo,
      insertionSortGo, insOuter, insInner, lswap, lset, lget, choosePivotGo, medianAdjacentGo,
      medianGo, order2Go, hintOfSwaps, partialInsertionSortGo, pisGo, pisAdvance, pisShiftLeft,
      pisShiftRight, partitionGo, partMainLoop, partAdvanceI, partRetreatJ, partitionEqualGo,
      peqLoop, peqAdvanceI, peqRetreatJ, natBitsLen, natBitsLen.go, breakPatternsGo,
      breakPatternsStep, xorshiftNext, nextPowerOfTwo, reverseRangeGo, heapSortGo, heapBuild,
      heapPop, siftDownGo, List.length, List.map]
  refine ⟨by decide, h2, ?_⟩
  rw [h2]
  decide
